import Mathlib

/-!
Verification of the supabase-models record layer (src/supabase_models/models.py).

The development shallowly embeds the pydantic-based model code:

* Python values that can appear in a model field are the inductive `Value`
  (ints, strings, floats as exact rationals, `Decimal` as a
  sign/coefficient/exponent triple, `datetime`/`date`/`time` records, UUIDs,
  byte strings, the `ProductStatusEnum` values, and nested `Category`
  instances).
* `SupabaseBaseModel` behavior is embedded as explicit functions:
  `serialize_fields` (the per-type `_SERIALIZERS` dispatch), the
  `validate_required_columns` model validator, `dump` (model_dump with the
  exclude-unset set), `__iter__` (iteration over `dump().items()`), and
  `load` (envelope unwrapping plus list-vs-mapping dispatch).
* The two concrete entity definitions `Category` and `Product` are embedded
  as structures holding their validated (typed) field values together with
  the set of explicitly provided field names (pydantic's
  `__pydantic_fields_set__`).
* Construction (`cls(**data)`) is embedded as a function from a raw field
  mapping to `Except ConstructError`; per-field pydantic validation
  (length, pattern, numeric bound, lax string coercion for `Decimal` and
  `datetime`) is embedded per field, errors are aggregated across fields in
  declaration order, and the after-validator runs only when every field
  validated, exactly as pydantic does.
-/

namespace SupabaseModels

/-- Character of a single decimal digit value below ten, as Python prints it. -/
def digitChar (n : Nat) : Char := Char.ofNat (48 + n)

/-- Big-endian digit characters of a positive natural number, by repeated
division (structural on a fuel argument so that closed terms reduce). -/
def digitCharsAux : Nat → Nat → List Char
  | 0, _ => []
  | fuel + 1, n =>
    if n = 0 then [] else digitCharsAux fuel (n / 10) ++ [digitChar (n % 10)]

/-- Big-endian decimal digit characters of a natural number, as produced by
Python string formatting of a nonnegative integer (no sign, no leading
zeros, and the single digit 0 for zero). -/
def natToDigitChars (n : Nat) : List Char :=
  if n = 0 then ['0'] else digitCharsAux n n

/-- Numeric value of a decimal digit character. -/
def charVal (c : Char) : Nat := c.toNat - 48

/-- Value of a big-endian string of decimal digit characters. -/
def charsToNat (cs : List Char) : Nat := cs.foldl (fun a c => a * 10 + charVal c) 0

/-- Test for an ASCII decimal digit character. -/
def isDigitChar (c : Char) : Bool := 48 ≤ c.toNat && c.toNat ≤ 57

/-- Left-pad a character list with zeros to width `w`, as Python %0wd does. -/
def zeroPad (w : Nat) (cs : List Char) : List Char :=
  List.replicate (w - cs.length) '0' ++ cs

/-- Integer rendering with a mandatory sign, as Python %+d formatting. -/
def intToSignedChars (i : Int) : List Char :=
  if i < 0 then '-' :: natToDigitChars i.natAbs else '+' :: natToDigitChars i.natAbs

/-- Model of a Python `decimal.Decimal` value: sign, coefficient, exponent,
the `(sign, digits, exponent)` triple of `Decimal.as_tuple()` with the digit
tuple collapsed into a natural number. (Both the `Decimal` string parser and
decimal arithmetic strip leading zeros, so coefficients carry none and the
collapse is faithful; special values NaN and Infinity are not modelled, as
no code path of the repository produces them.) -/
structure Dec where
  sign : Bool
  coeff : Nat
  exp : Int
deriving DecidableEq

/-- Sign prefix of a decimal literal. -/
def signChars (s : Bool) : List Char := if s then ['-'] else []

/-- Fractional part of a decimal literal: empty, or a point and digits. -/
def dotChars (fp : List Char) : List Char := if fp = [] then [] else '.' :: fp

/-- Rendering of a `Dec` following the Python `Decimal.__str__` algorithm
(the to-scientific-string conversion of the General Decimal Arithmetic
specification): a fixed-point form when `exp ≤ 0` and the adjusted exponent
is above -6, otherwise scientific notation with a signed exponent. -/
def decToChars (d : Dec) : List Char :=
  let ds := natToDigitChars d.coeff
  let n : Int := (ds.length : Int)
  let leftdigits : Int := d.exp + n
  let dotplace : Int := if d.exp ≤ 0 ∧ leftdigits > -6 then leftdigits else 1
  let body :=
    if dotplace ≤ 0 then
      '0' :: '.' :: (List.replicate (-dotplace).toNat '0' ++ ds)
    else if dotplace ≥ n then
      ds ++ List.replicate (dotplace - n).toNat '0'
    else
      ds.take dotplace.toNat ++ '.' :: ds.drop dotplace.toNat
  let expPart :=
    if leftdigits = dotplace then [] else 'E' :: intToSignedChars (leftdigits - dotplace)
  signChars d.sign ++ (body ++ expPart)

/-- Python `str(decimal_value)`. -/
def decToString (d : Dec) : String := String.mk (decToChars d)

/-- Split a character list at the first occurrence of `c`, returning the
parts before and after it, or `none` when `c` does not occur. -/
def splitAtChar (c : Char) : List Char → Option (List Char × List Char)
  | [] => none
  | x :: xs =>
    if x = c then some ([], xs)
    else
      match splitAtChar c xs with
      | some (a, b) => some (x :: a, b)
      | none => none

/-- Strip an optional leading sign, returning whether the value is negative
together with the remaining characters (Python decimal literal sign
handling: a leading minus marks a negative, a leading plus is skipped). -/
def stripSign : List Char → Bool × List Char
  | [] => (false, [])
  | x :: t => if x = '-' then (true, t) else if x = '+' then (false, t) else (false, x :: t)

/-- Parse a decimal integer with an optional sign (the exponent part of a
Python decimal literal). -/
def parseSignedNat : List Char → Option Int
  | [] => none
  | x :: t =>
    if x = '-' then
      if t ≠ [] ∧ t.all isDigitChar then some (-(charsToNat t : Int)) else none
    else if x = '+' then
      if t ≠ [] ∧ t.all isDigitChar then some ((charsToNat t : Int)) else none
    else
      if (x :: t).all isDigitChar then some ((charsToNat (x :: t) : Int)) else none

/-- Parse the mantissa of a Python decimal literal (digits with an optional
decimal point; at least one digit overall) given the already-parsed sign and
exponent; the exponent is lowered by the number of fractional digits, and
the coefficient is the combined digit string read as a natural number
(leading zeros are thereby stripped, as `Decimal` parsing strips them). -/
def parseDecMantissa (sign : Bool) (eVal : Int) (mant : List Char) : Option Dec :=
  match splitAtChar '.' mant with
  | some (ipart, fpart) =>
    if (ipart ++ fpart) ≠ [] ∧ (ipart ++ fpart).all isDigitChar then
      some ⟨sign, charsToNat (ipart ++ fpart), eVal - (fpart.length : Int)⟩
    else none
  | none =>
    if mant ≠ [] ∧ mant.all isDigitChar then some ⟨sign, charsToNat mant, eVal⟩
    else none

/-- Model of the Python `Decimal` string constructor on finite numeric
literals: optional sign, digits with optional point, optional exponent
introduced by `E`. (The constructor additionally accepts lowercase `e`,
surrounding whitespace, underscores and the special values NaN/Infinity;
those spellings are never produced by `Decimal.__str__` and are not
exercised by the repository, so they are left out.) -/
def parseDecChars (cs : List Char) : Option Dec :=
  match stripSign cs with
  | (neg, rest) =>
    match splitAtChar 'E' rest with
    | none => parseDecMantissa neg 0 rest
    | some (m, es) =>
      match parseSignedNat es with
      | some e => parseDecMantissa neg e m
      | none => none

/-- Python `Decimal(s)` on a string. -/
def parseDec (s : String) : Option Dec := parseDecChars s.data

/-- Model of a Python `datetime.datetime`: calendar and clock fields plus an
optional UTC offset in minutes (`utcoffset() // 1 minute`; offsets with a
seconds component are not modelled, pydantic never produces them from the
ISO strings this code emits). -/
structure DateTimeV where
  year : Nat
  month : Nat
  day : Nat
  hour : Nat
  minute : Nat
  second : Nat
  microsecond : Nat
  utcoffset : Option Int
deriving DecidableEq

/-- Invariant of the Python `datetime` type: the constructor rejects values
outside these bounds, so every `datetime` object satisfies them. (Python
additionally bounds the day by the actual month length; only the bounds
below are needed here.) -/
def DateTimeV.validB (t : DateTimeV) : Bool :=
  1 ≤ t.year && t.year ≤ 9999 && 1 ≤ t.month && t.month ≤ 12 &&
  1 ≤ t.day && t.day ≤ 31 && t.hour ≤ 23 && t.minute ≤ 59 && t.second ≤ 59 &&
  t.microsecond ≤ 999999 &&
  (match t.utcoffset with
   | none => true
   | some o => o.natAbs < 1440)

/-- Model of a Python `datetime.date`. -/
structure DateV where
  year : Nat
  month : Nat
  day : Nat
deriving DecidableEq

/-- Model of a Python `datetime.time` (optional UTC offset in minutes, as
for `DateTimeV`). -/
structure TimeV where
  hour : Nat
  minute : Nat
  second : Nat
  microsecond : Nat
  utcoffset : Option Int
deriving DecidableEq

/-- Two-digit zero-padded rendering (%02d). -/
def twoDigitChars (n : Nat) : List Char := zeroPad 2 (natToDigitChars n)

/-- UTC-offset suffix of Python `isoformat()`: empty for a naive value,
otherwise a sign followed by zero-padded hours and minutes. -/
def offsetChars : Option Int → List Char
  | none => []
  | some o =>
    (if o < 0 then '-' else '+') ::
      (twoDigitChars (o.natAbs / 60) ++ ':' :: twoDigitChars (o.natAbs % 60))

/-- Fractional-second suffix of Python `isoformat()`: empty when the
microsecond is zero, otherwise a point and six zero-padded digits. -/
def fractionChars (microsecond : Nat) : List Char :=
  if microsecond = 0 then [] else '.' :: zeroPad 6 (natToDigitChars microsecond)

/-- Clock part of Python `isoformat()`: HH:MM:SS with optional fraction. -/
def clockChars (hour minute second microsecond : Nat) : List Char :=
  twoDigitChars hour ++ ':' :: twoDigitChars minute ++ ':' :: twoDigitChars second
    ++ fractionChars microsecond

/-- Calendar part of Python `isoformat()`: YYYY-MM-DD. -/
def calendarChars (year month day : Nat) : List Char :=
  zeroPad 4 (natToDigitChars year) ++ '-' :: twoDigitChars month ++ '-' :: twoDigitChars day

/-- Characters of Python `datetime.isoformat()` (with the default separator
`T`): calendar part, clock part, fraction when nonzero, offset when aware. -/
def dtChars (t : DateTimeV) : List Char :=
  calendarChars t.year t.month t.day ++ 'T' ::
    (clockChars t.hour t.minute t.second t.microsecond ++ offsetChars t.utcoffset)

/-- Python `datetime.isoformat()`. -/
def DateTimeV.isoformat (t : DateTimeV) : String := String.mk (dtChars t)

/-- Python `date.isoformat()`. -/
def DateV.isoformat (d : DateV) : String := String.mk (calendarChars d.year d.month d.day)

/-- Python `time.isoformat()`. -/
def TimeV.isoformat (t : TimeV) : String :=
  String.mk (clockChars t.hour t.minute t.second t.microsecond ++ offsetChars t.utcoffset)

/-- Parse exactly `w` decimal digits into their value, returning the rest. -/
def parseFixedNat (w : Nat) (cs : List Char) : Option (Nat × List Char) :=
  if (cs.take w).length = w ∧ (cs.take w).all isDigitChar then
    some (charsToNat (cs.take w), cs.drop w)
  else none

/-- Consume one expected character. -/
def expectChar (c : Char) : List Char → Option (List Char)
  | [] => none
  | x :: t => if x = c then some t else none

/-- Parse an optional six-digit fractional-second part. -/
def parseFraction : List Char → Option (Nat × List Char)
  | '.' :: t => parseFixedNat 6 t
  | cs => some (0, cs)

/-- Consume the ISO-8601 date-time separator (`T`, or the space pydantic
also accepts). -/
def parseDTSep : List Char → Option (List Char)
  | 'T' :: t => some t
  | ' ' :: t => some t
  | _ => none

/-- Parse an optional trailing UTC offset (sign, HH:MM). -/
def parseOffset (cs : List Char) : Option (Option Int) :=
  match cs with
  | [] => some none
  | x :: t =>
    if x = '+' ∨ x = '-' then
      match parseFixedNat 2 t with
      | none => none
      | some (h, r1) =>
        match expectChar ':' r1 with
        | none => none
        | some r2 =>
          match parseFixedNat 2 r2 with
          | none => none
          | some (m, r3) =>
            if r3 = [] ∧ h ≤ 23 ∧ m ≤ 59 then
              some (some (if x = '-' then -((h * 60 + m : Nat) : Int) else ((h * 60 + m : Nat) : Int)))
            else none
    else none

/-- Model of pydantic's lax `datetime` validation of a string: an ISO-8601
timestamp `YYYY-MM-DD(T| )HH:MM:SS[.ffffff][±HH:MM]`, with the component
bounds pydantic enforces. (pydantic additionally accepts numeric epoch
timestamps, a `Z` suffix, and truncated clock parts; none of those shapes
are produced by `isoformat()` or exercised by the repository.) -/
def parseDtChars (cs : List Char) : Option DateTimeV :=
  match parseFixedNat 4 cs with
  | none => none
  | some (y, r1) =>
    match expectChar '-' r1 with
    | none => none
    | some r2 =>
      match parseFixedNat 2 r2 with
      | none => none
      | some (mo, r3) =>
        match expectChar '-' r3 with
        | none => none
        | some r4 =>
          match parseFixedNat 2 r4 with
          | none => none
          | some (d, r5) =>
            match parseDTSep r5 with
            | none => none
            | some r6 =>
              match parseFixedNat 2 r6 with
              | none => none
              | some (h, r7) =>
                match expectChar ':' r7 with
                | none => none
                | some r8 =>
                  match parseFixedNat 2 r8 with
                  | none => none
                  | some (mi, r9) =>
                    match expectChar ':' r9 with
                    | none => none
                    | some r10 =>
                      match parseFixedNat 2 r10 with
                      | none => none
                      | some (s, r11) =>
                        match parseFraction r11 with
                        | none => none
                        | some (us, r12) =>
                          match parseOffset r12 with
                          | none => none
                          | some off =>
                            let t : DateTimeV := ⟨y, mo, d, h, mi, s, us, off⟩
                            if t.validB then some t else none

/-- Pydantic lax datetime validation of a string value. -/
def parseDt (s : String) : Option DateTimeV := parseDtChars s.data

/-- Character of a single hexadecimal digit value below sixteen, lowercase
as Python prints UUIDs. -/
def hexChar (n : Nat) : Char :=
  if n < 10 then digitChar n else Char.ofNat (87 + n)

/-- Big-endian lowercase hexadecimal digit characters of a natural number. -/
def natToHexChars (n : Nat) : List Char :=
  if n = 0 then ['0'] else (Nat.digits 16 n).reverse.map hexChar

/-- Model of a Python `uuid.UUID`: its 128-bit integer value. -/
structure UuidV where
  val : Nat
deriving DecidableEq

/-- Python `str(uuid_value)`: 32 zero-padded lowercase hex digits grouped
8-4-4-4-12 by hyphens. -/
def uuidToString (u : UuidV) : String :=
  let h := zeroPad 32 (natToHexChars u.val)
  String.mk (h.take 8 ++ '-' :: ((h.drop 8).take 4 ++ '-' ::
    (((h.drop 12).take 4) ++ '-' :: (((h.drop 16).take 4) ++ '-' :: h.drop 20))))

/-- Character `n` of the standard base64 alphabet. -/
def b64Char (n : Nat) : Char :=
  (("ABCDEFGHIJKLMNOPQRSTUVWXYZabcdefghijklmnopqrstuvwxyz0123456789+/").data.getD n 'A')

/-- Standard base64 encoding of a byte list with `=` padding, as
`base64.b64encode` produces. -/
def b64EncodeChars : List Nat → List Char
  | [] => []
  | [a] => [b64Char (a / 4), b64Char (a % 4 * 16), '=', '=']
  | [a, b] => [b64Char (a / 4), b64Char (a % 4 * 16 + b / 16), b64Char (b % 16 * 4), '=']
  | a :: b :: c :: rest =>
    b64Char (a / 4) :: b64Char (a % 4 * 16 + b / 16) :: b64Char (b % 16 * 4 + c / 64) ::
      b64Char (c % 64) :: b64EncodeChars rest

/-- Python `base64.b64encode(v).decode("utf-8")` on a byte string. -/
def b64encode (bs : List Nat) : String := String.mk (b64EncodeChars bs)

/-- The `ProductStatusEnum` values. -/
inductive PStatus where
  | draft
  | active
  | archived
deriving DecidableEq

/-- String value of a `ProductStatusEnum` member. -/
def PStatus.value : PStatus → String
  | .draft => "draft"
  | .active => "active"
  | .archived => "archived"

/-- Model of the `Category` class: the validated value of each declared
field (`None` as `Option.none`), plus the set of explicitly provided field
names (`__pydantic_fields_set__`), kept in field-declaration order. -/
structure Category where
  id : Option Int
  name : Option String
  nickname : Option String
  fieldsSet : List String
deriving DecidableEq

/-- A Python value that can be supplied for, or stored in, a model field.
Floats are modelled by their exact rational value (every IEEE double is a
rational; the code never does float arithmetic, only comparison against the
bound 1.0, which is exact on rationals). A nested `Category` instance can
appear as the value of the `categories` relation field. -/
inductive Value where
  | vNone
  | vInt (i : Int)
  | vFloat (q : ℚ)
  | vStr (s : String)
  | vDec (d : Dec)
  | vDt (t : DateTimeV)
  | vDate (d : DateV)
  | vTime (t : TimeV)
  | vUuid (u : UuidV)
  | vBytes (bs : List Nat)
  | vEnum (e : PStatus)
  | vCat (c : Category)
deriving DecidableEq

/-- The runtime type of a value, the key Python `type(value)` yields for the
`_SERIALIZERS` dictionary lookup. -/
inductive PyType where
  | tNone
  | tInt
  | tFloat
  | tStr
  | tDecimal
  | tDatetime
  | tDate
  | tTime
  | tUuid
  | tBytes
  | tEnum
  | tCategory
deriving DecidableEq

/-- Python `type(value)` on a field value. -/
def Value.pyType : Value → PyType
  | .vNone => .tNone
  | .vInt _ => .tInt
  | .vFloat _ => .tFloat
  | .vStr _ => .tStr
  | .vDec _ => .tDecimal
  | .vDt _ => .tDatetime
  | .vDate _ => .tDate
  | .vTime _ => .tTime
  | .vUuid _ => .tUuid
  | .vBytes _ => .tBytes
  | .vEnum _ => .tEnum
  | .vCat _ => .tCategory

/-- The `datetime` entry of `_SERIALIZERS`: `lambda v: v.isoformat()`. -/
def serializeDatetime : Value → Value
  | .vDt t => .vStr t.isoformat
  | v => v

/-- The `date` entry of `_SERIALIZERS`: `lambda v: v.isoformat()`. -/
def serializeDate : Value → Value
  | .vDate d => .vStr d.isoformat
  | v => v

/-- The `time` entry of `_SERIALIZERS`: `lambda v: v.isoformat()`. -/
def serializeTime : Value → Value
  | .vTime t => .vStr t.isoformat
  | v => v

/-- The `Decimal` entry of `_SERIALIZERS`: `lambda v: str(v)`. -/
def serializeDecimal : Value → Value
  | .vDec d => .vStr (decToString d)
  | v => v

/-- The `UUID` entry of `_SERIALIZERS`: `lambda v: str(v)`. -/
def serializeUuid : Value → Value
  | .vUuid u => .vStr (uuidToString u)
  | v => v

/-- The `bytes` entry of `_SERIALIZERS`:
`lambda v: base64.b64encode(v).decode("utf-8")`. -/
def serializeBytes : Value → Value
  | .vBytes bs => .vStr (b64encode bs)
  | v => v

/-- The `_SERIALIZERS` class attribute: the type-keyed serialization
dispatch table of `SupabaseBaseModel`. -/
def SERIALIZERS : List (PyType × (Value → Value)) :=
  [(.tDatetime, serializeDatetime),
   (.tDate, serializeDate),
   (.tTime, serializeTime),
   (.tDecimal, serializeDecimal),
   (.tUuid, serializeUuid),
   (.tBytes, serializeBytes)]

/-- The `serialize_fields` field serializer: look the value's type up in
`_SERIALIZERS` and apply the serializer when one is found, otherwise return
the value unchanged. -/
def serialize_fields (v : Value) : Value :=
  match SERIALIZERS.lookup v.pyType with
  | some f => f v
  | none => v

/-- The error a failed construction raises, a `pydantic.ValidationError`:
either per-field validation errors (the names of the offending fields, in
field-declaration order, all collected — pydantic aggregates field errors)
or, when every field validated, the `validate_required_columns` failure
listing every required column that is `None`. -/
inductive ConstructError where
  | fieldErrors (fields : List String)
  | requiredMissing (missing : List String)
deriving DecidableEq

/-- View of an `Except` as a sum, to transport decidable equality. -/
def exceptToSum {ε α : Type} : Except ε α → ε ⊕ α
  | .error e => .inl e
  | .ok a => .inr a

instance {ε α : Type} [DecidableEq ε] [DecidableEq α] : DecidableEq (Except ε α) := fun x y =>
  decidable_of_iff (exceptToSum x = exceptToSum y) (by
    cases x <;> cases y <;> simp [exceptToSum])

/-- Look a field name up in a raw input mapping (Python keyword-argument
dictionary), first binding wins. -/
def vInput (input : List (String × Value)) (f : String) : Option Value :=
  input.lookup f

/-- Pydantic validation of an `int | None` field with no further
constraints: absent means the declared default `None`; an explicit `None` or
an int is accepted, anything else is a field error. (Lax coercions from
numeric strings and from floats are not modelled; no repository code path
supplies them.) -/
def validateIntField : Option Value → Option (Option Int)
  | none => some none
  | some .vNone => some none
  | some (.vInt i) => some (some i)
  | some _ => none

/-- Pydantic validation of a `str | None` field with `min_length` `lo` and
`max_length` `hi` (pass `lo = 0` when no `min_length` is declared). -/
def validateStrField (lo hi : Nat) : Option Value → Option (Option String)
  | none => some none
  | some .vNone => some none
  | some (.vStr s) => if lo ≤ s.length ∧ s.length ≤ hi then some (some s) else none
  | some _ => none

/-- Test for an ASCII uppercase letter. -/
def isUpperChar (c : Char) : Bool := 65 ≤ c.toNat && c.toNat ≤ 90

/-- Match of the anchored regex `^[A-Z]{2,3}-[0-9]{3,4}$`: two or three
uppercase letters, a hyphen, three or four digits, end of string. (The
character classes are disjoint from the hyphen, so the greedy bounded
repetitions are equivalent to taking the maximal run, as done here.) -/
def skuPattern (s : String) : Bool :=
  let letters := s.data.takeWhile isUpperChar
  let rest := s.data.dropWhile isUpperChar
  (2 ≤ letters.length && letters.length ≤ 3) &&
    (match rest with
     | '-' :: ds => (3 ≤ ds.length && ds.length ≤ 4) && ds.all isDigitChar
     | _ => false)

/-- Pydantic validation of the `sku` field: `str | None` with
`max_length=20` and `pattern=r"^[A-Z]{2,3}-[0-9]{3,4}$"`. -/
def validateSku : Option Value → Option (Option String)
  | none => some none
  | some .vNone => some none
  | some (.vStr s) => if s.length ≤ 20 ∧ skuPattern s then some (some s) else none
  | some _ => none

/-- Exact rational value of a `Dec` (coefficient times ten to the exponent,
negated when the sign is set), for the `gt` bound comparison. -/
def Dec.toRat (d : Dec) : ℚ :=
  let m : ℚ :=
    if 0 ≤ d.exp then mkRat ((d.coeff : Int) * 10 ^ d.exp.toNat) 1
    else mkRat (d.coeff : Int) (10 ^ (-d.exp).toNat)
  if d.sign then -m else m

/-- The validated value of the `price` field: the `Decimal | float` union. -/
inductive PriceV where
  | pdec (d : Dec)
  | pfloat (q : ℚ)
deriving DecidableEq

/-- Pydantic validation of the `price` field: `Decimal | float | None` with
`gt=1.0`. Under smart-union validation a `Decimal` and a `float` are kept
as-is, and a string is coerced by the leftmost lax-accepting member, the
`Decimal` constructor; the bound is then checked by exact comparison
against 1. (Lax int-to-Decimal coercion is not modelled; no repository code
path supplies an int here.) -/
def validatePrice : Option Value → Option (Option PriceV)
  | none => some none
  | some .vNone => some none
  | some (.vDec d) => if 1 < d.toRat then some (some (.pdec d)) else none
  | some (.vFloat q) => if 1 < q then some (some (.pfloat q)) else none
  | some (.vStr s) =>
    match parseDec s with
    | some d => if 1 < d.toRat then some (some (.pdec d)) else none
    | none => none
  | some _ => none

/-- Pydantic validation of the `status` field: `ProductStatusEnum | None`.
A member is accepted as-is; a string equal to a member value is coerced to
that member (str-enum lax coercion). The declared `max_length=8` is
satisfied by every member value (the longest, "archived", has length 8), so
it never rejects. -/
def validateStatus : Option Value → Option (Option PStatus)
  | none => some none
  | some .vNone => some none
  | some (.vEnum e) => some (some e)
  | some (.vStr s) =>
    if s = "draft" then some (some .draft)
    else if s = "active" then some (some .active)
    else if s = "archived" then some (some .archived)
    else none
  | some _ => none

/-- Pydantic validation of the `created_at` field: `datetime | None`. A
`datetime` instance is accepted as-is; a string is parsed as ISO-8601. -/
def validateDatetime : Option Value → Option (Option DateTimeV)
  | none => some none
  | some .vNone => some none
  | some (.vDt t) => some (some t)
  | some (.vStr s) =>
    match parseDt s with
    | some t => some (some t)
    | none => none
  | some _ => none

/-- Pydantic validation of the `categories` relation field:
`Category | None`. An existing `Category` instance is accepted as-is
(pydantic's default `revalidate_instances="never"`). (Validation of a raw
nested mapping into a `Category` is not modelled; no claim exercises it.) -/
def validateCategories : Option Value → Option (Option Category)
  | none => some none
  | some .vNone => some none
  | some (.vCat c) => some (some c)
  | some _ => none

/-- The `missing` list of `validate_required_columns`:
`[f for f in self._required_columns if getattr(self, f) is None]`. -/
def requiredMissingList (required : List String) (isNoneAt : String → Bool) : List String :=
  required.filter isNoneAt

/-- The declared field names of `Category`, in declaration order
(`model_fields.keys()`). -/
def Category.field_names : List String := ["id", "name", "nickname"]

/-- The `_required_columns` class attribute of `Category`. -/
def Category._required_columns : List String := ["name"]

/-- The `table_name` class attribute of `Category`. -/
def Category.table_name : String := "categories"

/-- Python `getattr(c, f) is None` for a `Category`. -/
def Category.fieldIsNone (c : Category) (f : String) : Bool :=
  if f = "id" then c.id.isNone
  else if f = "name" then c.name.isNone
  else if f = "nickname" then c.nickname.isNone
  else false

/-- The `__pydantic_fields_set__` a construction produces: the declared
fields for which the caller supplied a binding (pydantic ignores extra
keys, its default `extra="ignore"`), kept in declaration order. -/
def fieldsSetOf (names : List String) (input : List (String × Value)) : List String :=
  names.filter (fun f => (vInput input f).isSome)

/-- Construction `Category(**input)`: validate every field against its
declaration (collecting the offending field names across all fields, as
pydantic does), then run the `validate_required_columns` after-validator,
which only executes when field validation succeeded. -/
def Category.construct (input : List (String × Value)) : Except ConstructError Category :=
  match validateIntField (vInput input "id"),
        validateStrField 0 100 (vInput input "name"),
        validateStrField 4 14 (vInput input "nickname") with
  | some i, some n, some k =>
    let c : Category := ⟨i, n, k, fieldsSetOf Category.field_names input⟩
    let missing := requiredMissingList Category._required_columns c.fieldIsNone
    if missing.isEmpty then .ok c else .error (.requiredMissing missing)
  | ri, rn, rk =>
    .error (.fieldErrors
      ((if ri.isNone then ["id"] else []) ++ (if rn.isNone then ["name"] else []) ++
        (if rk.isNone then ["nickname"] else [])))

/-- The raw Python value stored in an `int | None` field. -/
def rawOptInt : Option Int → Value
  | none => .vNone
  | some i => .vInt i

/-- The raw Python value stored in a `str | None` field. -/
def rawOptStr : Option String → Value
  | none => .vNone
  | some s => .vStr s

/-- The raw Python value stored in the `price` field. -/
def rawPrice : Option PriceV → Value
  | none => .vNone
  | some (.pdec d) => .vDec d
  | some (.pfloat q) => .vFloat q

/-- The raw Python value stored in the `status` field. -/
def rawStatus : Option PStatus → Value
  | none => .vNone
  | some e => .vEnum e

/-- The raw Python value stored in the `created_at` field. -/
def rawDt : Option DateTimeV → Value
  | none => .vNone
  | some t => .vDt t

/-- The raw Python value stored in the `categories` field. -/
def rawCat : Option Category → Value
  | none => .vNone
  | some c => .vCat c

/-- The body of `dump`: compute
`exclude_set = {f for f in field_names if f not in fields_set}` and call
`model_dump(exclude=exclude_set if exclude_set else None)` — when the
exclude set is empty, `None` is passed and nothing is excluded; otherwise
the pairs whose key is in the exclude set are dropped. `pairs` is the full
serialized field mapping `model_dump` would produce without exclusions. -/
def dumpWithExclude (field_names : List String) (fieldsSet : List String)
    (pairs : List (String × Value)) : List (String × Value) :=
  let excludeSet := field_names.filter (fun f => !(fieldsSet.contains f))
  if excludeSet.isEmpty then pairs
  else pairs.filter (fun p => !(excludeSet.contains p.1))

/-- The full serialized field mapping of a `Category` (its `model_dump()`
with no exclusions): every declared field in order, each value passed
through the `serialize_fields` field serializer (`when_used="always"`). -/
def Category.dumpAll (c : Category) : List (String × Value) :=
  [("id", serialize_fields (rawOptInt c.id)),
   ("name", serialize_fields (rawOptStr c.name)),
   ("nickname", serialize_fields (rawOptStr c.nickname))]

/-- The `dump` method on a `Category`. -/
def Category.dump (c : Category) : List (String × Value) :=
  dumpWithExclude Category.field_names c.fieldsSet c.dumpAll

/-- The `__iter__` method: `iter(self.dump().items())`, the ordered pairs
of `dump`. -/
def Category.iterPairs (c : Category) : List (String × Value) := c.dump

/-- The declared field names of `Product`, in declaration order. -/
def Product.field_names : List String :=
  ["id", "name", "sku", "price", "category_id", "status", "created_at", "categories"]

/-- The `_required_columns` class attribute of `Product`. -/
def Product._required_columns : List String := ["name", "sku"]

/-- The `table_name` class attribute of `Product`. -/
def Product.table_name : String := "products"

/-- Model of the `Product` class: the validated value of each declared
field, plus `__pydantic_fields_set__`. -/
structure Product where
  id : Option Int
  name : Option String
  sku : Option String
  price : Option PriceV
  category_id : Option Int
  status : Option PStatus
  created_at : Option DateTimeV
  categories : Option Category
  fieldsSet : List String
deriving DecidableEq

/-- Python `getattr(p, f) is None` for a `Product`. -/
def Product.fieldIsNone (p : Product) (f : String) : Bool :=
  if f = "id" then p.id.isNone
  else if f = "name" then p.name.isNone
  else if f = "sku" then p.sku.isNone
  else if f = "price" then p.price.isNone
  else if f = "category_id" then p.category_id.isNone
  else if f = "status" then p.status.isNone
  else if f = "created_at" then p.created_at.isNone
  else if f = "categories" then p.categories.isNone
  else false

/-- Construction `Product(**input)`, as for `Category.construct`. -/
def Product.construct (input : List (String × Value)) : Except ConstructError Product :=
  match validateIntField (vInput input "id"),
        validateStrField 0 100 (vInput input "name"),
        validateSku (vInput input "sku"),
        validatePrice (vInput input "price"),
        validateIntField (vInput input "category_id"),
        validateStatus (vInput input "status"),
        validateDatetime (vInput input "created_at"),
        validateCategories (vInput input "categories") with
  | some i, some n, some sk, some pr, some ci, some st, some ca, some cs =>
    let p : Product := ⟨i, n, sk, pr, ci, st, ca, cs, fieldsSetOf Product.field_names input⟩
    let missing := requiredMissingList Product._required_columns p.fieldIsNone
    if missing.isEmpty then .ok p else .error (.requiredMissing missing)
  | ri, rn, rsk, rpr, rci, rst, rca, rcs =>
    .error (.fieldErrors
      ((if ri.isNone then ["id"] else []) ++ (if rn.isNone then ["name"] else []) ++
        (if rsk.isNone then ["sku"] else []) ++ (if rpr.isNone then ["price"] else []) ++
        (if rci.isNone then ["category_id"] else []) ++ (if rst.isNone then ["status"] else []) ++
        (if rca.isNone then ["created_at"] else []) ++ (if rcs.isNone then ["categories"] else [])))

/-- The full serialized field mapping of a `Product`. -/
def Product.dumpAll (p : Product) : List (String × Value) :=
  [("id", serialize_fields (rawOptInt p.id)),
   ("name", serialize_fields (rawOptStr p.name)),
   ("sku", serialize_fields (rawOptStr p.sku)),
   ("price", serialize_fields (rawPrice p.price)),
   ("category_id", serialize_fields (rawOptInt p.category_id)),
   ("status", serialize_fields (rawStatus p.status)),
   ("created_at", serialize_fields (rawDt p.created_at)),
   ("categories", serialize_fields (rawCat p.categories))]

/-- The `dump` method on a `Product`. -/
def Product.dump (p : Product) : List (String × Value) :=
  dumpWithExclude Product.field_names p.fieldsSet p.dumpAll

/-- The `__iter__` method on a `Product`. -/
def Product.iterPairs (p : Product) : List (String × Value) := p.dump

/-- The payload `load` works on after envelope unwrapping: either a single
raw mapping or a list of raw mappings. -/
inductive Payload where
  | mapping (m : List (String × Value))
  | rows (rs : List (List (String × Value)))

/-- The argument of `load`: either a response envelope exposing a `.data`
payload, or a bare payload (`getattr(response_or_data, "data",
response_or_data)` unwraps the former and passes the latter through). -/
inductive LoadInput where
  | envelope (p : Payload)
  | bare (p : Payload)

/-- The `getattr(response_or_data, "data", response_or_data)` step. -/
def unwrapData : LoadInput → Payload
  | .envelope p => p
  | .bare p => p

/-- The result of `load`: a single instance or a list of instances. -/
inductive LoadResult (α : Type) where
  | single (x : α)
  | many (xs : List α)
deriving DecidableEq

/-- The list comprehension `[cls(**record) for record in data]`: construct
each row in order; the first failing row raises, discarding everything. -/
def constructEach {α : Type} (construct : List (String × Value) → Except ConstructError α) :
    List (List (String × Value)) → Except ConstructError (List α)
  | [] => .ok []
  | r :: rs =>
    match construct r with
    | .error e => .error e
    | .ok x =>
      match constructEach construct rs with
      | .error e => .error e
      | .ok xs => .ok (x :: xs)

/-- The classmethod `load`: unwrap the envelope, then dispatch on
`isinstance(data, list)` — a list yields one instance per row, anything
else is passed to the constructor as a single mapping. -/
def loadWith {α : Type} (construct : List (String × Value) → Except ConstructError α)
    (inp : LoadInput) : Except ConstructError (LoadResult α) :=
  match unwrapData inp with
  | .rows rs =>
    match constructEach construct rs with
    | .ok xs => .ok (.many xs)
    | .error e => .error e
  | .mapping m =>
    match construct m with
    | .ok x => .ok (.single x)
    | .error e => .error e

/-- The `load` classmethod on `Category`. -/
def Category.load (inp : LoadInput) : Except ConstructError (LoadResult Category) :=
  loadWith Category.construct inp

/-- The `load` classmethod on `Product`. -/
def Product.load (inp : LoadInput) : Except ConstructError (LoadResult Product) :=
  loadWith Product.construct inp

/-- Python `dict(pairs)` built from an iterable of key-value pairs:
insertion order with last-wins overwriting. -/
def insertPair (m : List (String × Value)) (kv : String × Value) : List (String × Value) :=
  if m.any (fun p => p.1 = kv.1) then
    m.map (fun p => if p.1 = kv.1 then (p.1, kv.2) else p)
  else m ++ [kv]

/-- Python `dict(iterable_of_pairs)`. -/
def dictOfPairs (l : List (String × Value)) : List (String × Value) :=
  l.foldl insertPair []

/-- Update of `__pydantic_fields_set__` on attribute assignment: pydantic's
`__setattr__` adds the assigned name to the set. -/
def addFieldName (fs : List String) (f : String) : List String :=
  if fs.contains f then fs else fs ++ [f]

/-- Attribute assignment `p.price = v` on a `Product`. The model declares no
`model_config`, so pydantic's default `validate_assignment=False` applies:
`__setattr__` stores the value as-is — no constraint is re-checked — and
adds the name to `__pydantic_fields_set__`. The function is total: no
assignment of a representable value can fail. -/
def Product.assignPrice (p : Product) (v : Option PriceV) : Product :=
  { p with price := v, fieldsSet := addFieldName p.fieldsSet "price" }

/-- Attribute assignment `p.name = v` on a `Product` (unvalidated, as for
`Product.assignPrice`: in particular assigning `None` to this required
column succeeds). -/
def Product.assignName (p : Product) (v : Option String) : Product :=
  { p with name := v, fieldsSet := addFieldName p.fieldsSet "name" }

/-- Attribute assignment `c.nickname = v` on a `Category` (unvalidated). -/
def Category.assignNickname (c : Category) (v : Option String) : Category :=
  { c with nickname := v, fieldsSet := addFieldName c.fieldsSet "nickname" }

/-- Attribute assignment `c.name = v` on a `Category` (unvalidated). -/
def Category.assignName (c : Category) (v : Option String) : Category :=
  { c with name := v, fieldsSet := addFieldName c.fieldsSet "name" }

/-- A raw input mapping for `Category` in which every supplied value
satisfies its declared constraints and every required field is supplied
with a non-null value. -/
def CatValidInput (input : List (String × Value)) : Prop :=
  validateIntField (vInput input "id") ≠ none ∧
  (∃ s, validateStrField 0 100 (vInput input "name") = some (some s)) ∧
  validateStrField 4 14 (vInput input "nickname") ≠ none

/-- A raw input mapping for `Product` in which every supplied value
satisfies its declared constraints and every required field is supplied
with a non-null value. -/
def ProdValidInput (input : List (String × Value)) : Prop :=
  validateIntField (vInput input "id") ≠ none ∧
  (∃ s, validateStrField 0 100 (vInput input "name") = some (some s)) ∧
  (∃ s, validateSku (vInput input "sku") = some (some s)) ∧
  validatePrice (vInput input "price") ≠ none ∧
  validateIntField (vInput input "category_id") ≠ none ∧
  validateStatus (vInput input "status") ≠ none ∧
  validateDatetime (vInput input "created_at") ≠ none ∧
  validateCategories (vInput input "categories") ≠ none

/-- The Python `datetime` type invariant on the `created_at` field of an
instance (every `datetime` object satisfies it by construction). -/
def Product.dtValid (p : Product) : Bool :=
  match p.created_at with
  | none => true
  | some t => t.validB

theorem digitChar_toNat {d : Nat} (h : d < 10) : (digitChar d).toNat = 48 + d := by
  interval_cases d <;> rfl

theorem isDigitChar_digitChar {d : Nat} (h : d < 10) : isDigitChar (digitChar d) = true := by
  interval_cases d <;> rfl

theorem charVal_digitChar {d : Nat} (h : d < 10) : charVal (digitChar d) = d := by
  interval_cases d <;> rfl

theorem ne_of_isDigitChar {c x : Char} (h : isDigitChar c = true)
    (hx : isDigitChar x = false) : c ≠ x := by
  intro he
  subst he
  rw [h] at hx
  cases hx

theorem not_mem_of_all_digits {cs : List Char} (h : cs.all isDigitChar = true) {x : Char}
    (hx : isDigitChar x = false) : x ∉ cs := by
  intro hm
  rw [List.all_eq_true] at h
  have hc := h x hm
  rw [hc] at hx
  cases hx

theorem charsToNat_foldl (acc : Nat) (l : List Char) :
    l.foldl (fun a c => a * 10 + charVal c) acc = acc * 10 ^ l.length + charsToNat l := by
  induction l generalizing acc with
  | nil => simp [charsToNat]
  | cons c t ih =>
    simp only [charsToNat, List.foldl_cons, List.length_cons] at ih ⊢
    rw [ih (acc * 10 + charVal c), ih (0 * 10 + charVal c)]
    ring

theorem charsToNat_cons (c : Char) (t : List Char) :
    charsToNat (c :: t) = charVal c * 10 ^ t.length + charsToNat t := by
  simp only [charsToNat, List.foldl_cons]
  have h := charsToNat_foldl (0 * 10 + charVal c) t
  simpa [charsToNat] using h

theorem charsToNat_append (a b : List Char) :
    charsToNat (a ++ b) = charsToNat a * 10 ^ b.length + charsToNat b := by
  simp only [charsToNat, List.foldl_append]
  exact charsToNat_foldl _ b

theorem charsToNat_replicate_zeros (k : Nat) : charsToNat (List.replicate k '0') = 0 := by
  induction k with
  | zero => rfl
  | succ k ih =>
    rw [List.replicate_succ, charsToNat_cons, ih]
    simp [show charVal '0' = 0 from rfl]

theorem charsToNat_zero_prefix (k : Nat) (cs : List Char) :
    charsToNat (List.replicate k '0' ++ cs) = charsToNat cs := by
  rw [charsToNat_append, charsToNat_replicate_zeros]
  simp

theorem charsToNat_revmap (L : List Nat) (h : ∀ d ∈ L, d < 10) :
    charsToNat (L.reverse.map digitChar) = Nat.ofDigits 10 L := by
  induction L with
  | nil => rfl
  | cons d t ih =>
    rw [List.reverse_cons, List.map_append, charsToNat_append]
    have hd : d < 10 := h d (List.mem_cons_self d t)
    have ht : ∀ x ∈ t, x < 10 := fun x hx => h x (List.mem_cons_of_mem d hx)
    rw [ih ht]
    have h1 : charsToNat (List.map digitChar [d]) = d := by
      simp only [List.map_cons, List.map_nil]
      rw [charsToNat_cons]
      simp [charVal_digitChar hd, charsToNat]
    rw [h1, Nat.ofDigits_cons]
    simp only [List.map_cons, List.map_nil, List.length_cons, List.length_nil]
    ring

theorem digitCharsAux_eq {fuel n : Nat} (h : n ≤ fuel) :
    digitCharsAux fuel n = (Nat.digits 10 n).reverse.map digitChar := by
  induction fuel generalizing n with
  | zero =>
    have hn : n = 0 := by omega
    subst hn
    simp [digitCharsAux]
  | succ fuel ih =>
    rw [digitCharsAux]
    by_cases h0 : n = 0
    · rw [if_pos h0, h0]
      simp
    · rw [if_neg h0, Nat.digits_def' (by norm_num : (1 : Nat) < 10) (Nat.pos_of_ne_zero h0),
        List.reverse_cons, List.map_append]
      rw [ih (by
        have := Nat.div_lt_self (Nat.pos_of_ne_zero h0) (by norm_num : (1 : Nat) < 10)
        omega)]
      rfl

theorem natToDigitChars_eq_digits (n : Nat) :
    natToDigitChars n = if n = 0 then ['0'] else (Nat.digits 10 n).reverse.map digitChar := by
  rw [natToDigitChars]
  by_cases h : n = 0
  · rw [if_pos h, if_pos h]
  · rw [if_neg h, if_neg h, digitCharsAux_eq (le_refl n)]

theorem charsToNat_natToDigitChars (n : Nat) : charsToNat (natToDigitChars n) = n := by
  rw [natToDigitChars_eq_digits]
  by_cases h : n = 0
  · simp [h]
    decide
  · rw [if_neg h, charsToNat_revmap _ (fun d hd => Nat.digits_lt_base (by norm_num) hd),
      Nat.ofDigits_digits]

theorem natToDigitChars_all (n : Nat) : (natToDigitChars n).all isDigitChar = true := by
  rw [natToDigitChars_eq_digits]
  by_cases h : n = 0
  · simp [h]
    decide
  · rw [if_neg h, List.all_eq_true]
    intro c hc
    rw [List.mem_map] at hc
    obtain ⟨d, hd, rfl⟩ := hc
    rw [List.mem_reverse] at hd
    exact isDigitChar_digitChar (Nat.digits_lt_base (by norm_num) hd)

theorem natToDigitChars_ne_nil (n : Nat) : natToDigitChars n ≠ [] := by
  rw [natToDigitChars_eq_digits]
  by_cases h : n = 0
  · simp [h]
  · rw [if_neg h]
    simp [Nat.digits_ne_nil_iff_ne_zero.mpr h]

theorem natToDigitChars_length_le {n w : Nat} (hw : 1 ≤ w) (h : n < 10 ^ w) :
    (natToDigitChars n).length ≤ w := by
  rw [natToDigitChars_eq_digits]
  by_cases h0 : n = 0
  · simpa [h0] using hw
  · rw [if_neg h0, List.length_map, List.length_reverse,
      Nat.digits_len 10 n (by norm_num) h0]
    have hlog : Nat.log 10 n < w := Nat.log_lt_of_lt_pow h0 h
    omega

theorem zeroPad_length {w : Nat} {cs : List Char} (h : cs.length ≤ w) :
    (zeroPad w cs).length = w := by
  simp [zeroPad]
  omega

theorem zeroPad_all {w : Nat} {cs : List Char} (h : cs.all isDigitChar = true) :
    (zeroPad w cs).all isDigitChar = true := by
  rw [zeroPad, List.all_eq_true]
  intro c hc
  rcases List.mem_append.mp hc with hc1 | hc2
  · rw [List.eq_of_mem_replicate hc1]
    decide
  · exact List.all_eq_true.mp h c hc2

theorem charsToNat_zeroPad (w n : Nat) :
    charsToNat (zeroPad w (natToDigitChars n)) = n := by
  rw [zeroPad, charsToNat_zero_prefix, charsToNat_natToDigitChars]

theorem parseFixedNat_run {w n : Nat} (hw : 1 ≤ w) (h : n < 10 ^ w) (rest : List Char) :
    parseFixedNat w (zeroPad w (natToDigitChars n) ++ rest) = some (n, rest) := by
  have hall : (zeroPad w (natToDigitChars n)).all isDigitChar = true :=
    zeroPad_all (natToDigitChars_all n)
  have hval : charsToNat (zeroPad w (natToDigitChars n)) = n := charsToNat_zeroPad w n
  generalize hL : zeroPad w (natToDigitChars n) = L at hall hval ⊢
  have hlen : L.length = w := by
    rw [← hL]
    exact zeroPad_length (natToDigitChars_length_le hw h)
  have htake : (L ++ rest).take w = L := by
    rw [← hlen]
    exact List.take_left _ _
  have hdrop : (L ++ rest).drop w = rest := by
    rw [← hlen]
    exact List.drop_left _ _
  rw [parseFixedNat, htake, hdrop, if_pos ⟨hlen, hall⟩, hval]

theorem splitAtChar_not_mem {c : Char} {cs : List Char} (h : c ∉ cs) :
    splitAtChar c cs = none := by
  induction cs with
  | nil => rfl
  | cons x t ih =>
    rw [splitAtChar]
    rw [if_neg (by
      intro hx
      exact h (by rw [← hx]; exact List.mem_cons_self x t))]
    rw [ih (fun hm => h (List.mem_cons_of_mem x hm))]

theorem splitAtChar_first {c : Char} (a b : List Char) (h : c ∉ a) :
    splitAtChar c (a ++ c :: b) = some (a, b) := by
  induction a with
  | nil => simp [splitAtChar]
  | cons x t ih =>
    rw [List.cons_append, splitAtChar]
    rw [if_neg (by
      intro hx
      exact h (by rw [← hx]; exact List.mem_cons_self x t))]
    rw [ih (fun hm => h (List.mem_cons_of_mem x hm))]

theorem stripSign_shape (s : Bool) {d : Char} (hd : isDigitChar d = true) (rest : List Char) :
    stripSign (signChars s ++ d :: rest) = (s, d :: rest) := by
  have h1 : d ≠ '-' := ne_of_isDigitChar hd (by decide)
  have h2 : d ≠ '+' := ne_of_isDigitChar hd (by decide)
  cases s
  · show stripSign ([] ++ d :: rest) = (false, d :: rest)
    rw [List.nil_append, stripSign, if_neg h1, if_neg h2]
  · show stripSign (['-'] ++ d :: rest) = (true, d :: rest)
    rw [List.singleton_append, stripSign, if_pos rfl]

theorem parseSignedNat_intToSignedChars (i : Int) :
    parseSignedNat (intToSignedChars i) = some i := by
  rw [intToSignedChars]
  by_cases hi : i < 0
  · rw [if_pos hi, parseSignedNat, if_pos rfl,
      if_pos ⟨natToDigitChars_ne_nil _, natToDigitChars_all _⟩, charsToNat_natToDigitChars]
    congr 1
    omega
  · rw [if_neg hi, parseSignedNat, if_neg (by decide : ¬('+' = '-')), if_pos rfl,
      if_pos ⟨natToDigitChars_ne_nil _, natToDigitChars_all _⟩, charsToNat_natToDigitChars]
    congr 1
    omega

theorem parseDecMantissa_shape (ip fp : List Char) (hip : ip ≠ [])
    (hipd : ip.all isDigitChar = true) (hfpd : fp.all isDigitChar = true) (s : Bool)
    (eVal : Int) :
    parseDecMantissa s eVal (ip ++ dotChars fp) =
      some ⟨s, charsToNat (ip ++ fp), eVal - (fp.length : Int)⟩ := by
  by_cases hfp : fp = []
  · subst hfp
    rw [dotChars, if_pos rfl, List.append_nil]
    simp only [parseDecMantissa,
      splitAtChar_not_mem (not_mem_of_all_digits hipd (by decide : isDigitChar '.' = false))]
    rw [if_pos ⟨hip, hipd⟩]
    simp
  · rw [dotChars, if_neg hfp]
    simp only [parseDecMantissa,
      splitAtChar_first ip fp (not_mem_of_all_digits hipd (by decide : isDigitChar '.' = false))]
    rw [if_pos ⟨fun hc => hip (List.append_eq_nil.mp hc).1, by rw [List.all_append, hipd, hfpd]; rfl⟩]

theorem not_mem_body {x : Char} (hx : isDigitChar x = false) (hxd : x ≠ '.')
    {ip fp : List Char} (hipd : ip.all isDigitChar = true) (hfpd : fp.all isDigitChar = true) :
    x ∉ ip ++ dotChars fp := by
  intro hm
  rcases List.mem_append.mp hm with h1 | h2
  · exact (not_mem_of_all_digits hipd hx) h1
  · rw [dotChars] at h2
    by_cases hfp : fp = []
    · rw [if_pos hfp] at h2
      cases h2
    · rw [if_neg hfp] at h2
      rcases List.mem_cons.mp h2 with h3 | h4
      · exact hxd h3
      · exact (not_mem_of_all_digits hfpd hx) h4

theorem parseDecChars_noexp (ip fp : List Char) (hip : ip ≠ [])
    (hipd : ip.all isDigitChar = true) (hfpd : fp.all isDigitChar = true) (s : Bool) :
    parseDecChars (signChars s ++ (ip ++ dotChars fp)) =
      some ⟨s, charsToNat (ip ++ fp), -(fp.length : Int)⟩ := by
  obtain ⟨d, ip2, rfl⟩ : ∃ d ip2, ip = d :: ip2 := by
    cases ip with
    | nil => exact absurd rfl hip
    | cons d t => exact ⟨d, t, rfl⟩
  have hd : isDigitChar d = true := by
    rw [List.all_cons] at hipd
    exact (Bool.and_eq_true _ _ |>.mp hipd).1
  rw [List.cons_append, parseDecChars]
  simp only [stripSign_shape s hd]
  rw [← List.cons_append,
    splitAtChar_not_mem (not_mem_body (by decide) (by decide) hipd hfpd),
    parseDecMantissa_shape _ _ hip hipd hfpd]
  simp

theorem parseDecChars_exp (ip fp : List Char) (hip : ip ≠ [])
    (hipd : ip.all isDigitChar = true) (hfpd : fp.all isDigitChar = true) (s : Bool) (e : Int) :
    parseDecChars (signChars s ++ ((ip ++ dotChars fp) ++ 'E' :: intToSignedChars e)) =
      some ⟨s, charsToNat (ip ++ fp), e - (fp.length : Int)⟩ := by
  obtain ⟨d, ip2, rfl⟩ : ∃ d ip2, ip = d :: ip2 := by
    cases ip with
    | nil => exact absurd rfl hip
    | cons d t => exact ⟨d, t, rfl⟩
  have hd : isDigitChar d = true := by
    rw [List.all_cons] at hipd
    exact (Bool.and_eq_true _ _ |>.mp hipd).1
  rw [List.cons_append, List.cons_append, parseDecChars]
  simp only [stripSign_shape s hd]
  rw [← List.cons_append, ← List.cons_append]
  have hEnot : ('E' : Char) ∉ (d :: ip2) ++ dotChars fp :=
    not_mem_body (by decide) (by decide) hipd hfpd
  simp only [splitAtChar_first _ _ hEnot, parseSignedNat_intToSignedChars]
  exact parseDecMantissa_shape _ _ hip hipd hfpd s e

theorem charsToNat_cons_zero (Y : List Char) : charsToNat ('0' :: Y) = charsToNat Y := by
  rw [charsToNat_cons]
  simp [show charVal '0' = 0 from rfl]

theorem replicate_zero_all (k : Nat) : (List.replicate k '0').all isDigitChar = true := by
  rw [List.all_eq_true]
  intro c hc
  rw [List.eq_of_mem_replicate hc]
  decide

theorem all_take_digits {ds : List Char} (h : ds.all isDigitChar = true) (k : Nat) :
    (ds.take k).all isDigitChar = true := by
  rw [List.all_eq_true]
  intro x hx
  exact List.all_eq_true.mp h x (List.take_subset _ _ hx)

theorem all_drop_digits {ds : List Char} (h : ds.all isDigitChar = true) (k : Nat) :
    (ds.drop k).all isDigitChar = true := by
  rw [List.all_eq_true]
  intro x hx
  exact List.all_eq_true.mp h x (List.drop_subset _ _ hx)

theorem parseDecChars_decToChars (d : Dec) : parseDecChars (decToChars d) = some d := by
  obtain ⟨s, c, e⟩ := d
  have hdsne : natToDigitChars c ≠ [] := natToDigitChars_ne_nil c
  have hdsd : (natToDigitChars c).all isDigitChar = true := natToDigitChars_all c
  have hcds : charsToNat (natToDigitChars c) = c := charsToNat_natToDigitChars c
  simp only [decToChars]
  set ds := natToDigitChars c with hds
  set N : Int := ((ds.length : Nat) : Int) with hN
  have hN1 : (1 : Int) ≤ N := by
    have := List.length_pos.mpr hdsne
    omega
  split_ifs with h1 h2 h3 h4 h5 h6 h7 h8 h9 h10
  -- B1: fixed point, dotplace ≤ 0
  · rw [List.append_nil]
    have hfpne : List.replicate (-(e + N)).toNat '0' ++ ds ≠ [] := by
      intro hnil
      exact hdsne (List.append_eq_nil.mp hnil).2
    have hbody : ('0' :: '.' :: (List.replicate (-(e + N)).toNat '0' ++ ds))
        = ['0'] ++ dotChars (List.replicate (-(e + N)).toNat '0' ++ ds) := by
      rw [dotChars, if_neg hfpne]
      rfl
    rw [hbody, parseDecChars_noexp _ _ (by simp) (by decide)
      (by rw [List.all_append, replicate_zero_all, hdsd]; rfl) s]
    have hco : charsToNat (['0'] ++ (List.replicate (-(e + N)).toNat '0' ++ ds)) = c := by
      rw [List.singleton_append, charsToNat_cons_zero, charsToNat_zero_prefix, hcds]
    rw [hco]
    simp only [Option.some.injEq, Dec.mk.injEq, List.length_append, List.length_replicate]
    refine ⟨trivial, trivial, ?_⟩
    omega
  · exact absurd rfl h3
  -- B2: dotplace = N (e = 0)
  · have he0 : e = 0 := by omega
    have hz : (e + N - N).toNat = 0 := by omega
    rw [hz, List.replicate_zero, List.append_nil, List.append_nil]
    have hmain := parseDecChars_noexp ds [] hdsne hdsd (by decide) s
    simp [dotChars] at hmain
    rw [hcds] at hmain
    rw [hmain]
    simp only [Option.some.injEq, Dec.mk.injEq]
    exact ⟨trivial, trivial, by omega⟩
  · exact absurd rfl h5
  -- B3: fixed point, 0 < dotplace < N
  · rw [List.append_nil]
    set k := (e + N).toNat with hk
    have hkN : k < ds.length := by omega
    have hk1 : 1 ≤ k := by omega
    have htlen : (ds.take k).length = k := by
      rw [List.length_take]
      omega
    have htne : ds.take k ≠ [] := by
      intro hnil
      rw [hnil] at htlen
      simp at htlen
      omega
    have hdlen : (ds.drop k).length = ds.length - k := List.length_drop _ _
    have hdne : ds.drop k ≠ [] := by
      intro hnil
      rw [hnil] at hdlen
      simp at hdlen
      omega
    have hbody : List.take k ds ++ '.' :: List.drop k ds
        = List.take k ds ++ dotChars (List.drop k ds) := by
      rw [dotChars, if_neg hdne]
    rw [hbody, parseDecChars_noexp _ _ htne (all_take_digits hdsd k) (all_drop_digits hdsd k) s,
      List.take_append_drop, hcds]
    simp only [Option.some.injEq, Dec.mk.injEq]
    refine ⟨trivial, trivial, ?_⟩
    rw [hdlen]
    omega
  · exact absurd rfl h6
  -- h7 : (1 : Int) ≤ 0, impossible
  · omega
  · omega
  -- B4 contradiction: 1 ≥ N and e + N = 1 force e = 0, N = 1, contradicting h1
  · omega
  -- B5: scientific, N = 1
  · have hz : ((1 : Int) - N).toNat = 0 := by omega
    rw [hz, List.replicate_zero, List.append_nil]
    have hmain := parseDecChars_exp ds [] hdsne hdsd (by decide) s (e + N - 1)
    simp [dotChars] at hmain
    rw [hcds] at hmain
    rw [hmain]
    simp only [Option.some.injEq, Dec.mk.injEq]
    exact ⟨trivial, trivial, by omega⟩
  -- B6 contradiction
  · omega
  -- B7: scientific, 1 < N
  · rw [Int.toNat_one]
    have hkN : 1 < ds.length := by omega
    have htlen : (ds.take 1).length = 1 := by
      rw [List.length_take]
      omega
    have htne : ds.take 1 ≠ [] := by
      intro hnil
      rw [hnil] at htlen
      simp at htlen
    have hdlen : (ds.drop 1).length = ds.length - 1 := List.length_drop _ _
    have hdne : ds.drop 1 ≠ [] := by
      intro hnil
      rw [hnil] at hdlen
      simp at hdlen
      omega
    have hbody : List.take 1 ds ++ '.' :: List.drop 1 ds
        = List.take 1 ds ++ dotChars (List.drop 1 ds) := by
      rw [dotChars, if_neg hdne]
    rw [hbody]
    have hmain := parseDecChars_exp (List.take 1 ds) (List.drop 1 ds) htne
      (all_take_digits hdsd 1) (all_drop_digits hdsd 1) s (e + N - 1)
    rw [List.take_append_drop, hcds] at hmain
    rw [hmain]
    simp only [Option.some.injEq, Dec.mk.injEq]
    refine ⟨trivial, trivial, ?_⟩
    rw [hdlen]
    omega

/-- String-level decimal round trip: Python `Decimal(str(d))` recovers `d`
exactly (same sign, coefficient and exponent). -/
theorem parseDec_decToString (d : Dec) : parseDec (decToString d) = some d :=
  parseDecChars_decToChars d

theorem expectChar_run (c : Char) (rest : List Char) : expectChar c (c :: rest) = some rest := by
  rw [expectChar]
  exact if_pos rfl

theorem parseDTSep_T (rest : List Char) : parseDTSep ('T' :: rest) = some rest := rfl

theorem parseFraction_run {us : Nat} (h : us ≤ 999999) (o : Option Int) :
    parseFraction (fractionChars us ++ offsetChars o) = some (us, offsetChars o) := by
  rw [fractionChars]
  by_cases h0 : us = 0
  · rw [if_pos h0, List.nil_append]
    subst h0
    cases o with
    | none => rfl
    | some x =>
      rw [offsetChars]
      by_cases hx : x < 0
      · rw [if_pos hx]
        rfl
      · rw [if_neg hx]
        rfl
  · rw [if_neg h0, List.cons_append, parseFraction]
    exact parseFixedNat_run (by norm_num) (by omega) _

theorem parseOffset_run {o : Option Int} (h : ∀ x ∈ o, x.natAbs < 1440) :
    parseOffset (offsetChars o) = some o := by
  cases o with
  | none => rfl
  | some x =>
    have hx : x.natAbs < 1440 := h x rfl
    rw [offsetChars]
    have hfix1 := @parseFixedNat_run 2 (x.natAbs / 60) (by norm_num) (by omega)
    have hfix2 := @parseFixedNat_run 2 (x.natAbs % 60) (by norm_num) (by omega) []
    rw [List.append_nil] at hfix2
    by_cases hneg : x < 0
    · rw [if_pos hneg, twoDigitChars, twoDigitChars, parseOffset,
        if_pos (Or.inr rfl)]
      simp only [hfix1, expectChar_run, hfix2]
      rw [if_pos ⟨trivial, by omega, by omega⟩, if_true]
      simp only [Option.some.injEq]
      omega
    · rw [if_neg hneg, twoDigitChars, twoDigitChars, parseOffset,
        if_pos (Or.inl rfl)]
      simp only [hfix1, expectChar_run, hfix2]
      rw [if_pos ⟨trivial, by omega, by omega⟩, if_neg (by decide : ¬('+' = '-'))]
      simp only [Option.some.injEq]
      omega

theorem parseDtChars_dtChars {t : DateTimeV} (h : t.validB = true) :
    parseDtChars (dtChars t) = some t := by
  obtain ⟨y, mo, dy, hh, mi, ss, us, off⟩ := t
  rw [DateTimeV.validB] at h
  simp only [Bool.and_eq_true, decide_eq_true_eq] at h
  obtain ⟨⟨⟨⟨⟨⟨⟨⟨⟨⟨hy1, hy2⟩, hm1⟩, hm2⟩, hd1⟩, hd2⟩, hh2⟩, hmi2⟩, hss2⟩, hus2⟩, hoff⟩ := h
  have hofffix : ∀ x ∈ off, x.natAbs < 1440 := by
    intro x hxo
    cases off with
    | none => cases hxo
    | some z =>
      cases hxo
      exact of_decide_eq_true hoff
  simp only [dtChars, calendarChars, clockChars, twoDigitChars, List.cons_append,
    List.append_assoc]
  rw [parseDtChars]
  simp only [@parseFixedNat_run 4 y (by norm_num) (by omega),
    @parseFixedNat_run 2 mo (by norm_num) (by omega),
    @parseFixedNat_run 2 dy (by norm_num) (by omega),
    @parseFixedNat_run 2 hh (by norm_num) (by omega),
    @parseFixedNat_run 2 mi (by norm_num) (by omega),
    @parseFixedNat_run 2 ss (by norm_num) (by omega),
    expectChar_run, parseDTSep_T, parseFraction_run hus2 off, parseOffset_run hofffix]
  rw [if_pos]
  rw [DateTimeV.validB]
  simp only [Bool.and_eq_true, decide_eq_true_eq]
  refine ⟨⟨⟨⟨⟨⟨⟨⟨⟨⟨hy1, hy2⟩, hm1⟩, hm2⟩, hd1⟩, hd2⟩, hh2⟩, hmi2⟩, hss2⟩, hus2⟩, ?_⟩
  cases off with
  | none => trivial
  | some z =>
    exact hoff

/-- String-level datetime round trip: pydantic validation of
`datetime.isoformat()` output recovers the datetime field-for-field. -/
theorem parseDt_isoformat {t : DateTimeV} (h : t.validB = true) :
    parseDt t.isoformat = some t :=
  parseDtChars_dtChars h

theorem contains_iff_mem_str {l : List String} {a : String} : l.contains a = true ↔ a ∈ l := by
  simp

theorem mapFst_filter (g : String → Bool) (l : List (String × Value)) :
    (l.filter (fun p => g p.1)).map Prod.fst = (l.map Prod.fst).filter g := by
  induction l with
  | nil => rfl
  | cons p t ih =>
    by_cases hg : g p.1 <;> simp [List.filter_cons, hg, ih]

theorem dumpWithExclude_eq_filter (names fs : List String) (pairs : List (String × Value))
    (hkeys : pairs.map Prod.fst = names) :
    dumpWithExclude names fs pairs = pairs.filter (fun p => fs.contains p.1) := by
  simp only [dumpWithExclude]
  by_cases hex : (names.filter (fun f => !(fs.contains f))).isEmpty
  · rw [if_pos hex]
    symm
    apply List.filter_eq_self.mpr
    intro p hp
    have hmem : p.1 ∈ names := by
      rw [← hkeys]
      exact List.mem_map_of_mem Prod.fst hp
    rw [List.isEmpty_iff] at hex
    have h2 := List.filter_eq_nil_iff.mp hex _ hmem
    simpa using h2
  · rw [if_neg hex]
    apply List.filter_congr
    intro p hp
    have hmem : p.1 ∈ names := by
      rw [← hkeys]
      exact List.mem_map_of_mem Prod.fst hp
    show (!((names.filter (fun f => !(fs.contains f))).contains p.1)) = fs.contains p.1
    by_cases hc : fs.contains p.1
    · have h3 : (names.filter (fun f => !(fs.contains f))).contains p.1 = false := by
        rw [← Bool.not_eq_true]
        intro hct
        have hmf := contains_iff_mem_str.mp hct
        rw [List.mem_filter, hc] at hmf
        exact absurd hmf.2 (by decide)
      rw [hc, h3]
      rfl
    · have hbc : fs.contains p.1 = false := by
        rw [← Bool.not_eq_true]
        exact hc
      have h3 : (names.filter (fun f => !(fs.contains f))).contains p.1 = true :=
        contains_iff_mem_str.mpr (by
          rw [List.mem_filter]
          exact ⟨hmem, by rw [hbc]; rfl⟩)
      rw [hbc, h3]
      rfl

theorem dump_keys (names fs : List String) (pairs : List (String × Value))
    (hkeys : pairs.map Prod.fst = names) :
    (dumpWithExclude names fs pairs).map Prod.fst = names.filter (fun f => fs.contains f) := by
  rw [dumpWithExclude_eq_filter _ _ _ hkeys, mapFst_filter, hkeys]

theorem vInput_cons_self (k : String) (v : Value) (t : List (String × Value)) :
    vInput ((k, v) :: t) k = some v := by
  simp [vInput, List.lookup]

theorem vInput_cons_ne {k f : String} (h : k ≠ f) (v : Value) (t : List (String × Value)) :
    vInput ((k, v) :: t) f = vInput t f := by
  simp only [vInput, List.lookup]
  rw [show (f == k) = false from beq_eq_false_iff_ne.mpr (Ne.symm h)]

theorem vInput_eq_none {pairs : List (String × Value)} {f : String}
    (h : f ∉ pairs.map Prod.fst) : vInput pairs f = none := by
  induction pairs with
  | nil => rfl
  | cons p t ih =>
    obtain ⟨k, v⟩ := p
    simp only [List.map_cons, List.mem_cons] at h
    push_neg at h
    rw [vInput_cons_ne (Ne.symm h.1) v t]
    exact ih h.2

theorem vInput_filter (pairs : List (String × Value)) (fs : List String) (f : String)
    (hnd : (pairs.map Prod.fst).Nodup) :
    vInput (pairs.filter (fun p => fs.contains p.1)) f =
      if fs.contains f then vInput pairs f else none := by
  induction pairs with
  | nil => simp [vInput, List.lookup]
  | cons p t ih =>
    obtain ⟨k, v⟩ := p
    simp only [List.map_cons, List.nodup_cons] at hnd
    obtain ⟨hk, hnd2⟩ := hnd
    by_cases hkf : k = f
    · subst hkf
      by_cases hc : fs.contains k
      · rw [List.filter_cons_of_pos (by simpa using hc), vInput_cons_self, if_pos hc,
          vInput_cons_self]
      · rw [List.filter_cons_of_neg (by simpa using hc), if_neg hc]
        apply vInput_eq_none
        intro hmem
        rw [mapFst_filter] at hmem
        exact hk (List.mem_of_mem_filter hmem)
    · by_cases hc : fs.contains k
      · rw [List.filter_cons_of_pos (by simpa using hc), vInput_cons_ne hkf,
          ih hnd2]
        by_cases hcf : fs.contains f
        · rw [if_pos hcf, if_pos hcf, vInput_cons_ne hkf]
        · rw [if_neg hcf, if_neg hcf]
      · rw [List.filter_cons_of_neg (by simpa using hc), ih hnd2]
        by_cases hcf : fs.contains f
        · rw [if_pos hcf, if_pos hcf, vInput_cons_ne hkf]
        · rw [if_neg hcf, if_neg hcf]

theorem insertPair_of_new {m : List (String × Value)} {kv : String × Value}
    (h : ∀ q ∈ m, q.1 ≠ kv.1) : insertPair m kv = m ++ [kv] := by
  rw [insertPair, if_neg]
  intro hany
  rw [List.any_eq_true] at hany
  obtain ⟨q, hq, he⟩ := hany
  exact h q hq (by simpa using he)

theorem foldl_insertPair (l m : List (String × Value))
    (hnd : ((m ++ l).map Prod.fst).Nodup) : l.foldl insertPair m = m ++ l := by
  induction l generalizing m with
  | nil => simp
  | cons p t ih =>
    have hnew : ∀ q ∈ m, q.1 ≠ p.1 := by
      intro q hq
      rw [List.map_append, List.nodup_append] at hnd
      have hdisj := hnd.2.2
      intro he
      exact hdisj (List.mem_map_of_mem Prod.fst hq)
        (by rw [he, List.map_cons]; exact List.mem_cons_self _ _)
    rw [List.foldl_cons, insertPair_of_new hnew, ih (m ++ [p])
      (by rw [← List.append_cons]; exact hnd), ← List.append_cons]

theorem dictOfPairs_of_nodup {l : List (String × Value)} (hnd : (l.map Prod.fst).Nodup) :
    dictOfPairs l = l := by
  rw [dictOfPairs, foldl_insertPair l [] (by simpa using hnd)]
  rfl

theorem constructEach_ok_length {α : Type} {f : List (String × Value) → Except ConstructError α}
    {rs : List (List (String × Value))} {xs : List α}
    (h : constructEach f rs = .ok xs) : xs.length = rs.length := by
  induction rs generalizing xs with
  | nil =>
    cases h
    rfl
  | cons r t ih =>
    rw [constructEach] at h
    cases hr : f r with
    | error e =>
      rw [hr] at h
      cases h
    | ok x =>
      rw [hr] at h
      cases ht : constructEach f t with
      | error e =>
        rw [ht] at h
        cases h
      | ok ys =>
        rw [ht] at h
        cases h
        simp [ih ht]

theorem constructEach_ok_get {α : Type} {f : List (String × Value) → Except ConstructError α}
    {rs : List (List (String × Value))} {xs : List α}
    (h : constructEach f rs = .ok xs) :
    ∀ i (hi : i < rs.length) (hx : i < xs.length),
      f (rs.get ⟨i, hi⟩) = .ok (xs.get ⟨i, hx⟩) := by
  induction rs generalizing xs with
  | nil =>
    intro i hi
    cases hi
  | cons r t ih =>
    rw [constructEach] at h
    cases hr : f r with
    | error e =>
      rw [hr] at h
      cases h
    | ok x =>
      rw [hr] at h
      cases ht : constructEach f t with
      | error e =>
        rw [ht] at h
        cases h
      | ok ys =>
        rw [ht] at h
        cases h
        intro i hi hx
        cases i with
        | zero => exact hr
        | succ j => exact ih ht j (by simpa using hi) (by simpa using hx)

theorem constructEach_all_ok {α : Type} {f : List (String × Value) → Except ConstructError α}
    {rs : List (List (String × Value))}
    (h : ∀ r ∈ rs, ∃ x, f r = .ok x) : ∃ xs, constructEach f rs = .ok xs := by
  induction rs with
  | nil => exact ⟨[], rfl⟩
  | cons r t ih =>
    obtain ⟨x, hx⟩ := h r (List.mem_cons_self r t)
    obtain ⟨xs, hxs⟩ := ih (fun q hq => h q (List.mem_cons_of_mem r hq))
    refine ⟨x :: xs, ?_⟩
    rw [constructEach, hx, hxs]

theorem constructEach_error {α : Type} {f : List (String × Value) → Except ConstructError α}
    {rs : List (List (String × Value))} {r : List (String × Value)} (hr : r ∈ rs) {e : ConstructError}
    (he : f r = .error e) : ∃ e2, constructEach f rs = .error e2 := by
  induction rs with
  | nil => cases hr
  | cons q t ih =>
    rcases List.mem_cons.mp hr with h1 | h2
    · subst h1
      exact ⟨e, by rw [constructEach, he]⟩
    · cases hq : f q with
      | error e3 => exact ⟨e3, by rw [constructEach, hq]⟩
      | ok x =>
        obtain ⟨e2, he2⟩ := ih h2
        exact ⟨e2, by rw [constructEach, hq, he2]⟩

theorem serialize_fields_vNone : serialize_fields .vNone = .vNone := rfl

theorem serialize_fields_vInt (i : Int) : serialize_fields (.vInt i) = .vInt i := rfl

theorem serialize_fields_vFloat (q : ℚ) : serialize_fields (.vFloat q) = .vFloat q := rfl

theorem serialize_fields_vStr (s : String) : serialize_fields (.vStr s) = .vStr s := rfl

theorem serialize_fields_vDec (d : Dec) :
    serialize_fields (.vDec d) = .vStr (decToString d) := rfl

theorem serialize_fields_vDt (t : DateTimeV) :
    serialize_fields (.vDt t) = .vStr t.isoformat := rfl

theorem serialize_fields_vDate (d : DateV) :
    serialize_fields (.vDate d) = .vStr d.isoformat := rfl

theorem serialize_fields_vTime (t : TimeV) :
    serialize_fields (.vTime t) = .vStr t.isoformat := rfl

theorem serialize_fields_vUuid (u : UuidV) :
    serialize_fields (.vUuid u) = .vStr (uuidToString u) := rfl

theorem serialize_fields_vBytes (bs : List Nat) :
    serialize_fields (.vBytes bs) = .vStr (b64encode bs) := rfl

theorem serialize_fields_vEnum (e : PStatus) : serialize_fields (.vEnum e) = .vEnum e := rfl

theorem serialize_fields_vCat (c : Category) : serialize_fields (.vCat c) = .vCat c := rfl

theorem validateIntField_reser {x : Option Value} {w : Option Int}
    (h : validateIntField x = some w) :
    validateIntField (some (serialize_fields (rawOptInt w))) = some w := by
  cases x with
  | none =>
    cases h
    rfl
  | some v =>
    cases v <;> simp only [validateIntField] at h <;> cases h <;> rfl

theorem validateStrField_reser (lo hi : Nat) {x : Option Value} {w : Option String}
    (h : validateStrField lo hi x = some w) :
    validateStrField lo hi (some (serialize_fields (rawOptStr w))) = some w := by
  cases x with
  | none =>
    cases h
    rfl
  | some v =>
    cases v <;> simp only [validateStrField] at h
    case vNone =>
      cases h
      rfl
    case vStr s =>
      split_ifs at h with hc
      · cases h
        simp only [rawOptStr, serialize_fields_vStr, validateStrField]
        rw [if_pos hc]
    all_goals cases h

theorem validateSku_reser {x : Option Value} {w : Option String}
    (h : validateSku x = some w) :
    validateSku (some (serialize_fields (rawOptStr w))) = some w := by
  cases x with
  | none =>
    cases h
    rfl
  | some v =>
    cases v <;> simp only [validateSku] at h
    case vNone =>
      cases h
      rfl
    case vStr s =>
      split_ifs at h with hc
      · cases h
        simp only [rawOptStr, serialize_fields_vStr, validateSku]
        rw [if_pos hc]
    all_goals cases h

theorem validatePrice_reser {x : Option Value} {w : Option PriceV}
    (h : validatePrice x = some w) :
    validatePrice (some (serialize_fields (rawPrice w))) = some w := by
  cases x with
  | none =>
    cases h
    rfl
  | some v =>
    cases v <;> simp only [validatePrice] at h
    case vNone =>
      cases h
      rfl
    case vDec d =>
      split_ifs at h with hc
      · cases h
        simp only [rawPrice, serialize_fields_vDec, validatePrice, parseDec_decToString d]
        rw [if_pos hc]
    case vFloat q =>
      split_ifs at h with hc
      · cases h
        simp only [rawPrice, serialize_fields_vFloat, validatePrice]
        rw [if_pos hc]
    case vStr s =>
      cases hp : parseDec s with
      | none =>
        rw [hp] at h
        cases h
      | some d =>
        simp only [hp] at h
        split_ifs at h with hc
        · cases h
          simp only [rawPrice, serialize_fields_vDec, validatePrice, parseDec_decToString d]
          rw [if_pos hc]
    all_goals cases h

theorem validateStatus_reser {x : Option Value} {w : Option PStatus}
    (h : validateStatus x = some w) :
    validateStatus (some (serialize_fields (rawStatus w))) = some w := by
  cases x with
  | none =>
    cases h
    rfl
  | some v =>
    cases v <;> simp only [validateStatus] at h
    case vNone =>
      cases h
      rfl
    case vEnum e =>
      cases h
      rfl
    case vStr s =>
      split_ifs at h with h1 h2 h3 <;> cases h <;> rfl
    all_goals cases h

theorem validateDatetime_reser {x : Option Value} {w : Option DateTimeV}
    (h : validateDatetime x = some w) (hwf : ∀ t ∈ w, t.validB = true) :
    validateDatetime (some (serialize_fields (rawDt w))) = some w := by
  cases x with
  | none =>
    cases h
    rfl
  | some v =>
    cases v <;> simp only [validateDatetime] at h
    case vNone =>
      cases h
      rfl
    case vDt t =>
      cases h
      have hv := hwf t rfl
      simp only [rawDt, serialize_fields_vDt, validateDatetime, parseDt_isoformat hv]
    case vStr s =>
      cases hp : parseDt s with
      | none =>
        rw [hp] at h
        cases h
      | some t =>
        simp only [hp] at h
        cases h
        have hv := hwf t rfl
        simp only [rawDt, serialize_fields_vDt, validateDatetime, parseDt_isoformat hv]
    all_goals cases h

theorem validateCategories_reser {x : Option Value} {w : Option Category}
    (h : validateCategories x = some w) :
    validateCategories (some (serialize_fields (rawCat w))) = some w := by
  cases x with
  | none =>
    cases h
    rfl
  | some v =>
    cases v <;> simp only [validateCategories] at h
    case vNone =>
      cases h
      rfl
    case vCat c =>
      cases h
      rfl
    all_goals cases h

theorem reload_field {α : Type} {validate : Option Value → Option (Option α)}
    {rawv : Value} {x : Option Value} {w : Option α} {b : Bool}
    (hv : validate x = some w)
    (hnone : validate none = some none)
    (hreser : validate (some rawv) = some w)
    (hx : b = false → x = none) :
    validate (if b = true then some rawv else none) = some w := by
  cases b
  · rw [if_neg (by simp)]
    rw [hx rfl] at hv
    rw [hnone] at hv
    cases hv
    exact hnone
  · rw [if_pos rfl]
    exact hreser

theorem fieldsSetOf_not_contains {names : List String} {input : List (String × Value)}
    {f : String} (hmem : f ∈ names)
    (hcf : (fieldsSetOf names input).contains f = false) : vInput input f = none := by
  cases hx : vInput input f with
  | none => rfl
  | some v =>
    exfalso
    have hct : (fieldsSetOf names input).contains f = true := by
      apply contains_iff_mem_str.mpr
      rw [fieldsSetOf, List.mem_filter]
      exact ⟨hmem, by rw [hx]; rfl⟩
    rw [hcf] at hct
    cases hct

theorem fieldsSetOf_filtered (names fs : List String) (pairs : List (String × Value))
    (hkeys : pairs.map Prod.fst = names) (hnd : names.Nodup)
    (hsome : ∀ f ∈ names, (vInput pairs f).isSome = true) :
    fieldsSetOf names (pairs.filter (fun p => fs.contains p.1)) =
      names.filter (fun f => fs.contains f) := by
  rw [fieldsSetOf]
  apply List.filter_congr
  intro f hf
  rw [vInput_filter pairs fs f (by rw [hkeys]; exact hnd)]
  by_cases hc : fs.contains f
  · rw [if_pos hc, hc]
    exact hsome f hf
  · rw [if_neg hc, show fs.contains f = false from by
      rw [← Bool.not_eq_true]; exact hc]
    rfl

theorem filter_contains_of_filter (names : List String) (g : String → Bool) :
    names.filter (fun f => (names.filter g).contains f) = names.filter g := by
  apply List.filter_congr
  intro f hf
  by_cases hg : g f
  · rw [hg, show (names.filter g).contains f = true from
      contains_iff_mem_str.mpr (by rw [List.mem_filter]; exact ⟨hf, hg⟩)]
  · have hgf : g f = false := by
      rw [← Bool.not_eq_true]
      exact hg
    rw [hgf, show (names.filter g).contains f = false from by
      rw [← Bool.not_eq_true]
      intro hct
      have := contains_iff_mem_str.mp hct
      rw [List.mem_filter, hgf] at this
      exact absurd this.2 (by decide)]

theorem category_construct_ok_inv {input : List (String × Value)} {c : Category}
    (h : Category.construct input = .ok c) :
    validateIntField (vInput input "id") = some c.id ∧
    validateStrField 0 100 (vInput input "name") = some c.name ∧
    validateStrField 4 14 (vInput input "nickname") = some c.nickname ∧
    c.fieldsSet = fieldsSetOf Category.field_names input ∧
    c.name ≠ none := by
  rw [Category.construct] at h
  cases h1 : validateIntField (vInput input "id") with
  | none =>
    simp only [h1] at h
    exact (Except.noConfusion h)
  | some i =>
    cases h2 : validateStrField 0 100 (vInput input "name") with
    | none =>
      simp only [h1, h2] at h
      exact (Except.noConfusion h)
    | some n =>
      cases h3 : validateStrField 4 14 (vInput input "nickname") with
      | none =>
        simp only [h1, h2, h3] at h
        exact (Except.noConfusion h)
      | some k =>
        simp only [h1, h2, h3] at h
        cases n with
        | none => exact (Except.noConfusion h)
        | some s =>
          have h4 : (⟨i, some s, k, fieldsSetOf Category.field_names input⟩ : Category) = c :=
            Except.ok.inj h
          subst h4
          exact ⟨rfl, rfl, rfl, rfl, by simp⟩

theorem category_reload {input : List (String × Value)} {c : Category}
    (h : Category.construct input = .ok c) :
    Category.load (.bare (.mapping (Category.dump c))) = .ok (.single c) := by
  obtain ⟨hid, hname, hnick, hfs, hnn⟩ := category_construct_ok_inv h
  have hfilter : Category.dump c = c.dumpAll.filter (fun p => c.fieldsSet.contains p.1) :=
    dumpWithExclude_eq_filter _ _ _ rfl
  have hval : ∀ f, vInput (Category.dump c) f =
      if c.fieldsSet.contains f then vInput c.dumpAll f else none := by
    intro f
    rw [hfilter]
    exact vInput_filter _ _ _ (by
      rw [show c.dumpAll.map Prod.fst = Category.field_names from rfl]
      decide)
  have hid2 : validateIntField (vInput (Category.dump c) "id") = some c.id := by
    rw [hval "id",
      show vInput c.dumpAll "id" = some (serialize_fields (rawOptInt c.id)) from rfl]
    refine reload_field hid rfl (validateIntField_reser hid) (fun hcf => ?_)
    have h5 : (fieldsSetOf Category.field_names input).contains "id" = false := by
      rw [← hfs]
      exact hcf
    exact fieldsSetOf_not_contains (by decide) h5
  have hname2 : validateStrField 0 100 (vInput (Category.dump c) "name") = some c.name := by
    rw [hval "name",
      show vInput c.dumpAll "name" = some (serialize_fields (rawOptStr c.name)) from rfl]
    refine reload_field hname rfl (validateStrField_reser 0 100 hname) (fun hcf => ?_)
    have h5 : (fieldsSetOf Category.field_names input).contains "name" = false := by
      rw [← hfs]
      exact hcf
    exact fieldsSetOf_not_contains (by decide) h5
  have hnick2 : validateStrField 4 14 (vInput (Category.dump c) "nickname") = some c.nickname := by
    rw [hval "nickname",
      show vInput c.dumpAll "nickname" = some (serialize_fields (rawOptStr c.nickname)) from rfl]
    refine reload_field hnick rfl (validateStrField_reser 4 14 hnick) (fun hcf => ?_)
    have h5 : (fieldsSetOf Category.field_names input).contains "nickname" = false := by
      rw [← hfs]
      exact hcf
    exact fieldsSetOf_not_contains (by decide) h5
  have hsome : ∀ f ∈ Category.field_names, (vInput c.dumpAll f).isSome = true := by
    intro f hf
    fin_cases hf <;> rfl
  have hfseq : fieldsSetOf Category.field_names (Category.dump c) = c.fieldsSet := by
    rw [hfilter, fieldsSetOf_filtered Category.field_names c.fieldsSet c.dumpAll rfl
      (by decide) hsome, hfs, fieldsSetOf, filter_contains_of_filter]
  obtain ⟨s, hs⟩ : ∃ s, c.name = some s := by
    cases hx : c.name with
    | none => exact absurd hx hnn
    | some s => exact ⟨s, rfl⟩
  have hcond : (requiredMissingList Category._required_columns
      (Category.fieldIsNone c)).isEmpty = true := by
    simp [requiredMissingList, Category.fieldIsNone, Category._required_columns, hs]
  have hcon : Category.construct (Category.dump c) = .ok c := by
    rw [Category.construct]
    simp only [hid2, hname2, hnick2, hfseq]
    show (if (requiredMissingList Category._required_columns
          (Category.fieldIsNone c)).isEmpty = true
        then Except.ok c
        else Except.error (ConstructError.requiredMissing
          (requiredMissingList Category._required_columns (Category.fieldIsNone c)))) =
      Except.ok c
    rw [if_pos hcond]
  rw [Category.load, loadWith]
  simp only [unwrapData, hcon]

theorem product_construct_ok_inv {input : List (String × Value)} {p : Product}
    (h : Product.construct input = .ok p) :
    validateIntField (vInput input "id") = some p.id ∧
    validateStrField 0 100 (vInput input "name") = some p.name ∧
    validateSku (vInput input "sku") = some p.sku ∧
    validatePrice (vInput input "price") = some p.price ∧
    validateIntField (vInput input "category_id") = some p.category_id ∧
    validateStatus (vInput input "status") = some p.status ∧
    validateDatetime (vInput input "created_at") = some p.created_at ∧
    validateCategories (vInput input "categories") = some p.categories ∧
    p.fieldsSet = fieldsSetOf Product.field_names input ∧
    p.name ≠ none ∧ p.sku ≠ none := by
  rw [Product.construct] at h
  cases h1 : validateIntField (vInput input "id") with
  | none =>
    simp only [h1] at h
    exact (Except.noConfusion h)
  | some i =>
  cases h2 : validateStrField 0 100 (vInput input "name") with
  | none =>
    simp only [h1, h2] at h
    exact (Except.noConfusion h)
  | some n =>
  cases h3 : validateSku (vInput input "sku") with
  | none =>
    simp only [h1, h2, h3] at h
    exact (Except.noConfusion h)
  | some sk =>
  cases h4 : validatePrice (vInput input "price") with
  | none =>
    simp only [h1, h2, h3, h4] at h
    exact (Except.noConfusion h)
  | some pr =>
  cases h5 : validateIntField (vInput input "category_id") with
  | none =>
    simp only [h1, h2, h3, h4, h5] at h
    exact (Except.noConfusion h)
  | some ci =>
  cases h6 : validateStatus (vInput input "status") with
  | none =>
    simp only [h1, h2, h3, h4, h5, h6] at h
    exact (Except.noConfusion h)
  | some st =>
  cases h7 : validateDatetime (vInput input "created_at") with
  | none =>
    simp only [h1, h2, h3, h4, h5, h6, h7] at h
    exact (Except.noConfusion h)
  | some ca =>
  cases h8 : validateCategories (vInput input "categories") with
  | none =>
    simp only [h1, h2, h3, h4, h5, h6, h7, h8] at h
    exact (Except.noConfusion h)
  | some cs =>
  simp only [h1, h2, h3, h4, h5, h6, h7, h8] at h
  cases n with
  | none => exact (Except.noConfusion h)
  | some s1 =>
  cases sk with
  | none => exact (Except.noConfusion h)
  | some s2 =>
  have h9 : (⟨i, some s1, some s2, pr, ci, st, ca, cs,
      fieldsSetOf Product.field_names input⟩ : Product) = p :=
    Except.ok.inj h
  subst h9
  exact ⟨rfl, rfl, rfl, rfl, rfl, rfl, rfl, rfl, rfl, by simp, by simp⟩

theorem product_reload {input : List (String × Value)} {p : Product}
    (h : Product.construct input = .ok p) (hdtv : p.dtValid = true) :
    Product.load (.bare (.mapping (Product.dump p))) = .ok (.single p) := by
  obtain ⟨hid, hname, hsku, hprice, hcid, hstatus, hca, hcat, hfs, hnn, hsn⟩ :=
    product_construct_ok_inv h
  have hwf : ∀ t ∈ p.created_at, t.validB = true := by
    intro t ht
    rw [Product.dtValid] at hdtv
    cases hx : p.created_at with
    | none =>
      rw [hx] at ht
      cases ht
    | some u =>
      rw [hx] at ht hdtv
      cases ht
      exact hdtv
  have hfilter : Product.dump p = p.dumpAll.filter (fun q => p.fieldsSet.contains q.1) :=
    dumpWithExclude_eq_filter _ _ _ rfl
  have hval : ∀ f, vInput (Product.dump p) f =
      if p.fieldsSet.contains f then vInput p.dumpAll f else none := by
    intro f
    rw [hfilter]
    exact vInput_filter _ _ _ (by
      rw [show p.dumpAll.map Prod.fst = Product.field_names from rfl]
      decide)
  have hnc : ∀ f : String, f ∈ Product.field_names →
      (fieldsSetOf Product.field_names input).contains f = false → vInput input f = none := by
    intro f hmem hcf
    exact fieldsSetOf_not_contains hmem hcf
  have hid2 : validateIntField (vInput (Product.dump p) "id") = some p.id := by
    rw [hval "id",
      show vInput p.dumpAll "id" = some (serialize_fields (rawOptInt p.id)) from rfl]
    refine reload_field hid rfl (validateIntField_reser hid) (fun hcf => ?_)
    exact hnc "id" (by decide) (by rw [← hfs]; exact hcf)
  have hname2 : validateStrField 0 100 (vInput (Product.dump p) "name") = some p.name := by
    rw [hval "name",
      show vInput p.dumpAll "name" = some (serialize_fields (rawOptStr p.name)) from rfl]
    refine reload_field hname rfl (validateStrField_reser 0 100 hname) (fun hcf => ?_)
    exact hnc "name" (by decide) (by rw [← hfs]; exact hcf)
  have hsku2 : validateSku (vInput (Product.dump p) "sku") = some p.sku := by
    rw [hval "sku",
      show vInput p.dumpAll "sku" = some (serialize_fields (rawOptStr p.sku)) from rfl]
    refine reload_field hsku rfl (validateSku_reser hsku) (fun hcf => ?_)
    exact hnc "sku" (by decide) (by rw [← hfs]; exact hcf)
  have hprice2 : validatePrice (vInput (Product.dump p) "price") = some p.price := by
    rw [hval "price",
      show vInput p.dumpAll "price" = some (serialize_fields (rawPrice p.price)) from rfl]
    refine reload_field hprice rfl (validatePrice_reser hprice) (fun hcf => ?_)
    exact hnc "price" (by decide) (by rw [← hfs]; exact hcf)
  have hcid2 : validateIntField (vInput (Product.dump p) "category_id") = some p.category_id := by
    rw [hval "category_id",
      show vInput p.dumpAll "category_id" =
        some (serialize_fields (rawOptInt p.category_id)) from rfl]
    refine reload_field hcid rfl (validateIntField_reser hcid) (fun hcf => ?_)
    exact hnc "category_id" (by decide) (by rw [← hfs]; exact hcf)
  have hstatus2 : validateStatus (vInput (Product.dump p) "status") = some p.status := by
    rw [hval "status",
      show vInput p.dumpAll "status" = some (serialize_fields (rawStatus p.status)) from rfl]
    refine reload_field hstatus rfl (validateStatus_reser hstatus) (fun hcf => ?_)
    exact hnc "status" (by decide) (by rw [← hfs]; exact hcf)
  have hca2 : validateDatetime (vInput (Product.dump p) "created_at") = some p.created_at := by
    rw [hval "created_at",
      show vInput p.dumpAll "created_at" = some (serialize_fields (rawDt p.created_at)) from rfl]
    refine reload_field hca rfl (validateDatetime_reser hca hwf) (fun hcf => ?_)
    exact hnc "created_at" (by decide) (by rw [← hfs]; exact hcf)
  have hcat2 : validateCategories (vInput (Product.dump p) "categories") = some p.categories := by
    rw [hval "categories",
      show vInput p.dumpAll "categories" =
        some (serialize_fields (rawCat p.categories)) from rfl]
    refine reload_field hcat rfl (validateCategories_reser hcat) (fun hcf => ?_)
    exact hnc "categories" (by decide) (by rw [← hfs]; exact hcf)
  have hsome : ∀ f ∈ Product.field_names, (vInput p.dumpAll f).isSome = true := by
    intro f hf
    fin_cases hf <;> rfl
  have hfseq : fieldsSetOf Product.field_names (Product.dump p) = p.fieldsSet := by
    rw [hfilter, fieldsSetOf_filtered Product.field_names p.fieldsSet p.dumpAll rfl
      (by decide) hsome, hfs, fieldsSetOf, filter_contains_of_filter]
  obtain ⟨s1, hs1⟩ : ∃ s, p.name = some s := by
    cases hx : p.name with
    | none => exact absurd hx hnn
    | some s => exact ⟨s, rfl⟩
  obtain ⟨s2, hs2⟩ : ∃ s, p.sku = some s := by
    cases hx : p.sku with
    | none => exact absurd hx hsn
    | some s => exact ⟨s, rfl⟩
  have hcond : (requiredMissingList Product._required_columns
      (Product.fieldIsNone p)).isEmpty = true := by
    simp [requiredMissingList, Product.fieldIsNone, Product._required_columns, hs1, hs2]
  have hcon : Product.construct (Product.dump p) = .ok p := by
    rw [Product.construct]
    simp only [hid2, hname2, hsku2, hprice2, hcid2, hstatus2, hca2, hcat2, hfseq]
    show (if (requiredMissingList Product._required_columns
          (Product.fieldIsNone p)).isEmpty = true
        then Except.ok p
        else Except.error (ConstructError.requiredMissing
          (requiredMissingList Product._required_columns (Product.fieldIsNone p)))) =
      Except.ok p
    rw [if_pos hcond]
  rw [Product.load, loadWith]
  simp only [unwrapData, hcon]

theorem category_construct_of_valid {input : List (String × Value)} (h : CatValidInput input) :
    ∃ c : Category, Category.construct input = .ok c ∧
      c.fieldsSet = fieldsSetOf Category.field_names input := by
  obtain ⟨h1, ⟨s, h2⟩, h3⟩ := h
  obtain ⟨i, hi⟩ : ∃ i, validateIntField (vInput input "id") = some i := by
    cases hx : validateIntField (vInput input "id") with
    | none => exact absurd hx h1
    | some i => exact ⟨i, rfl⟩
  obtain ⟨k, hk⟩ : ∃ k, validateStrField 4 14 (vInput input "nickname") = some k := by
    cases hx : validateStrField 4 14 (vInput input "nickname") with
    | none => exact absurd hx h3
    | some k => exact ⟨k, rfl⟩
  refine ⟨⟨i, some s, k, fieldsSetOf Category.field_names input⟩, ?_, rfl⟩
  rw [Category.construct]
  simp only [hi, h2, hk]
  rfl

theorem product_construct_of_valid {input : List (String × Value)} (h : ProdValidInput input) :
    ∃ p : Product, Product.construct input = .ok p ∧
      p.fieldsSet = fieldsSetOf Product.field_names input := by
  obtain ⟨h1, ⟨s1, h2⟩, ⟨s2, h3⟩, h4, h5, h6, h7, h8⟩ := h
  obtain ⟨i, hi⟩ : ∃ i, validateIntField (vInput input "id") = some i := by
    cases hx : validateIntField (vInput input "id") with
    | none => exact absurd hx h1
    | some i => exact ⟨i, rfl⟩
  obtain ⟨pr, hpr⟩ : ∃ pr, validatePrice (vInput input "price") = some pr := by
    cases hx : validatePrice (vInput input "price") with
    | none => exact absurd hx h4
    | some pr => exact ⟨pr, rfl⟩
  obtain ⟨ci, hci⟩ : ∃ ci, validateIntField (vInput input "category_id") = some ci := by
    cases hx : validateIntField (vInput input "category_id") with
    | none => exact absurd hx h5
    | some ci => exact ⟨ci, rfl⟩
  obtain ⟨st, hst⟩ : ∃ st, validateStatus (vInput input "status") = some st := by
    cases hx : validateStatus (vInput input "status") with
    | none => exact absurd hx h6
    | some st => exact ⟨st, rfl⟩
  obtain ⟨ca, hca⟩ : ∃ ca, validateDatetime (vInput input "created_at") = some ca := by
    cases hx : validateDatetime (vInput input "created_at") with
    | none => exact absurd hx h7
    | some ca => exact ⟨ca, rfl⟩
  obtain ⟨cs, hcs⟩ : ∃ cs, validateCategories (vInput input "categories") = some cs := by
    cases hx : validateCategories (vInput input "categories") with
    | none => exact absurd hx h8
    | some cs => exact ⟨cs, rfl⟩
  refine ⟨⟨i, some s1, some s2, pr, ci, st, ca, cs, fieldsSetOf Product.field_names input⟩,
    ?_, rfl⟩
  rw [Product.construct]
  simp only [hi, h2, h3, hpr, hci, hst, hca, hcs]
  rfl

theorem category_construct_required {input : List (String × Value)} {i : Option Int}
    {k : Option String}
    (h1 : validateIntField (vInput input "id") = some i)
    (h2 : validateStrField 0 100 (vInput input "name") = some none)
    (h3 : validateStrField 4 14 (vInput input "nickname") = some k) :
    Category.construct input = .error (.requiredMissing ["name"]) := by
  rw [Category.construct]
  simp only [h1, h2, h3]
  rfl

theorem product_construct_required {input : List (String × Value)} {i : Option Int}
    {n sk : Option String} {pr : Option PriceV} {ci : Option Int} {st : Option PStatus}
    {ca : Option DateTimeV} {cs : Option Category}
    (h1 : validateIntField (vInput input "id") = some i)
    (h2 : validateStrField 0 100 (vInput input "name") = some n)
    (h3 : validateSku (vInput input "sku") = some sk)
    (h4 : validatePrice (vInput input "price") = some pr)
    (h5 : validateIntField (vInput input "category_id") = some ci)
    (h6 : validateStatus (vInput input "status") = some st)
    (h7 : validateDatetime (vInput input "created_at") = some ca)
    (h8 : validateCategories (vInput input "categories") = some cs)
    (hmiss : n = none ∨ sk = none) :
    Product.construct input = .error (.requiredMissing
      ((if n = none then ["name"] else []) ++ (if sk = none then ["sku"] else []))) := by
  rw [Product.construct]
  simp only [h1, h2, h3, h4, h5, h6, h7, h8]
  cases n with
  | none =>
    cases sk with
    | none => rfl
    | some s2 => rfl
  | some s1 =>
    cases sk with
    | none => rfl
    | some s2 =>
      rcases hmiss with hm | hm <;> exact (Option.noConfusion hm)

theorem addFieldName_contains (fs : List String) (f : String) :
    (addFieldName fs f).contains f = true := by
  rw [addFieldName]
  by_cases hc : fs.contains f
  · rw [if_pos hc]
    exact hc
  · rw [if_neg hc]
    apply contains_iff_mem_str.mpr
    simp

/-- C1: for every entity definition (Category, Product), construction from a
raw mapping whose supplied values satisfy their declared constraints and
which supplies every required field succeeds, and `dump` then returns a
mapping whose keys are exactly the declared field names the caller supplied,
in declaration order, with no other keys; moreover, for any instance, the
keys of `dump` are exactly the members of the explicitly-set field set, so a
field set by later assignment is dumped as well and unset-default fields are
omitted. -/
theorem claim_c1_dump_exactly_set_fields :
    (∀ input : List (String × Value), CatValidInput input →
      ∃ c : Category, Category.construct input = .ok c ∧
        (Category.dump c).map Prod.fst =
          Category.field_names.filter (fun f => (vInput input f).isSome)) ∧
    (∀ input : List (String × Value), ProdValidInput input →
      ∃ p : Product, Product.construct input = .ok p ∧
        (Product.dump p).map Prod.fst =
          Product.field_names.filter (fun f => (vInput input f).isSome)) ∧
    (∀ (c : Category) (v : Option String),
      ((c.assignNickname v).dump.map Prod.fst) =
        Category.field_names.filter
          (fun f => (addFieldName c.fieldsSet "nickname").contains f)) := by
  refine ⟨?_, ?_, ?_⟩
  · intro input h
    obtain ⟨c, hok, hfs⟩ := category_construct_of_valid h
    refine ⟨c, hok, ?_⟩
    rw [Category.dump, dump_keys Category.field_names c.fieldsSet c.dumpAll rfl, hfs,
      fieldsSetOf, filter_contains_of_filter]
  · intro input h
    obtain ⟨p, hok, hfs⟩ := product_construct_of_valid h
    refine ⟨p, hok, ?_⟩
    rw [Product.dump, dump_keys Product.field_names p.fieldsSet p.dumpAll rfl, hfs,
      fieldsSetOf, filter_contains_of_filter]
  · intro c v
    exact dump_keys Category.field_names _ _ rfl

theorem claim_c1_witness :
    (∃ c : Category, Category.construct [("name", Value.vStr "Books")] = .ok c ∧
      (Category.dump c).map Prod.fst =
        Category.field_names.filter
          (fun f => (vInput [("name", Value.vStr "Books")] f).isSome)) ∧
    (∃ p : Product,
      Product.construct [("name", Value.vStr "Pen"), ("sku", Value.vStr "AB-123")] = .ok p ∧
      (Product.dump p).map Prod.fst =
        Product.field_names.filter
          (fun f =>
            (vInput [("name", Value.vStr "Pen"), ("sku", Value.vStr "AB-123")] f).isSome)) :=
  ⟨claim_c1_dump_exactly_set_fields.1 _ ⟨by decide, ⟨"Books", by decide⟩, by decide⟩,
   claim_c1_dump_exactly_set_fields.2.1 _
     ⟨by decide, ⟨"Pen", by decide⟩, ⟨"AB-123", by decide⟩, by decide, by decide, by decide,
      by decide, by decide⟩⟩

/-- C2: for each subtype, when every field value validates but required
fields are left null after defaulting, construction fails with the
`validate_required_columns` error listing every missing required field (both
at once for Product, not first-violation-only); and after any successful
construction every required field is non-null. -/
theorem claim_c2_required_columns :
    (∀ (input : List (String × Value)) (i : Option Int) (k : Option String),
      validateIntField (vInput input "id") = some i →
      validateStrField 0 100 (vInput input "name") = some none →
      validateStrField 4 14 (vInput input "nickname") = some k →
      Category.construct input = .error (.requiredMissing ["name"])) ∧
    (∀ (input : List (String × Value)) (i : Option Int) (n sk : Option String)
      (pr : Option PriceV) (ci : Option Int) (st : Option PStatus) (ca : Option DateTimeV)
      (cs : Option Category),
      validateIntField (vInput input "id") = some i →
      validateStrField 0 100 (vInput input "name") = some n →
      validateSku (vInput input "sku") = some sk →
      validatePrice (vInput input "price") = some pr →
      validateIntField (vInput input "category_id") = some ci →
      validateStatus (vInput input "status") = some st →
      validateDatetime (vInput input "created_at") = some ca →
      validateCategories (vInput input "categories") = some cs →
      n = none ∨ sk = none →
      Product.construct input = .error (.requiredMissing
        ((if n = none then ["name"] else []) ++ (if sk = none then ["sku"] else [])))) ∧
    (∀ (input : List (String × Value)) (c : Category),
      Category.construct input = .ok c → c.name ≠ none) ∧
    (∀ (input : List (String × Value)) (p : Product),
      Product.construct input = .ok p → p.name ≠ none ∧ p.sku ≠ none) := by
  refine ⟨?_, ?_, ?_, ?_⟩
  · intro input i k h1 h2 h3
    exact category_construct_required h1 h2 h3
  · intro input i n sk pr ci st ca cs h1 h2 h3 h4 h5 h6 h7 h8 hmiss
    exact product_construct_required h1 h2 h3 h4 h5 h6 h7 h8 hmiss
  · intro input c h
    exact (category_construct_ok_inv h).2.2.2.2
  · intro input p h
    obtain ⟨_, _, _, _, _, _, _, _, _, hn, hs⟩ := product_construct_ok_inv h
    exact ⟨hn, hs⟩

theorem claim_c2_witness :
    Category.construct [] = .error (.requiredMissing ["name"]) ∧
    Product.construct [] = .error (.requiredMissing ["name", "sku"]) ∧
    (⟨none, some "B", none, ["name"]⟩ : Category).name ≠ none := by
  refine ⟨claim_c2_required_columns.1 [] none none (by decide) (by decide) (by decide), ?_, ?_⟩
  · have h := claim_c2_required_columns.2.1 [] none none none none none none none none
      (by decide) (by decide) (by decide) (by decide) (by decide) (by decide) (by decide)
      (by decide) (Or.inl rfl)
    simpa using h
  · exact claim_c2_required_columns.2.2.1 [("name", Value.vStr "B")] _ (by decide)

/-- C3: round trip — for every validly constructed instance of either
subtype, loading the dump of the instance as a bare mapping on the same
subtype succeeds and reproduces the instance exactly, field for field (for
Product, under the Python datetime type invariant on its `created_at`
value, which every real `datetime` object carries). -/
theorem claim_c3_roundtrip :
    (∀ (input : List (String × Value)) (c : Category), Category.construct input = .ok c →
      Category.load (.bare (.mapping (Category.dump c))) = .ok (.single c)) ∧
    (∀ (input : List (String × Value)) (p : Product), Product.construct input = .ok p →
      p.dtValid = true →
      Product.load (.bare (.mapping (Product.dump p))) = .ok (.single p)) :=
  ⟨fun _ _ h => category_reload h, fun _ _ h hd => product_reload h hd⟩

theorem claim_c3_witness :
    Category.load (.bare (.mapping (Category.dump
      ⟨none, some "Books", some "abcd", ["name", "nickname"]⟩))) =
      .ok (.single ⟨none, some "Books", some "abcd", ["name", "nickname"]⟩) ∧
    Product.load (.bare (.mapping (Product.dump
      ⟨none, some "Pen", some "AB-123", some (.pdec ⟨false, 1099, -2⟩), none, none,
        some ⟨2024, 5, 1, 10, 30, 0, 0, none⟩, none,
        ["name", "sku", "price", "created_at"]⟩))) =
      .ok (.single ⟨none, some "Pen", some "AB-123", some (.pdec ⟨false, 1099, -2⟩), none,
        none, some ⟨2024, 5, 1, 10, 30, 0, 0, none⟩, none,
        ["name", "sku", "price", "created_at"]⟩) :=
  ⟨claim_c3_roundtrip.1 [("name", Value.vStr "Books"), ("nickname", Value.vStr "abcd")] _
     (by decide),
   claim_c3_roundtrip.2 [("name", Value.vStr "Pen"), ("sku", Value.vStr "AB-123"),
       ("price", Value.vDec ⟨false, 1099, -2⟩),
       ("created_at", Value.vDt ⟨2024, 5, 1, 10, 30, 0, 0, none⟩)] _
     (by decide) (by decide)⟩

/-- C4: for both entity definitions, `load` on a response envelope whose
data is an ordered list of N raw rows returns an ordered list of exactly N
validated instances, the i-th instance constructed from the i-th row; and
if any row fails validation the whole load fails with an error and no
partial result is returned. -/
theorem claim_c4_load_envelope_list :
    (∀ rows : List (List (String × Value)),
      (∀ r ∈ rows, ∃ x : Category, Category.construct r = .ok x) →
      ∃ cs : List Category, Category.load (.envelope (.rows rows)) = .ok (.many cs) ∧
        cs.length = rows.length ∧
        ∀ (i : Nat) (hi : i < rows.length) (hc : i < cs.length),
          Category.construct (rows.get ⟨i, hi⟩) = .ok (cs.get ⟨i, hc⟩)) ∧
    (∀ (rows : List (List (String × Value))) (r : List (String × Value)) (e : ConstructError),
      r ∈ rows → Category.construct r = .error e →
      ∃ e2, Category.load (.envelope (.rows rows)) = .error e2) ∧
    (∀ rows : List (List (String × Value)),
      (∀ r ∈ rows, ∃ x : Product, Product.construct r = .ok x) →
      ∃ ps : List Product, Product.load (.envelope (.rows rows)) = .ok (.many ps) ∧
        ps.length = rows.length ∧
        ∀ (i : Nat) (hi : i < rows.length) (hp : i < ps.length),
          Product.construct (rows.get ⟨i, hi⟩) = .ok (ps.get ⟨i, hp⟩)) ∧
    (∀ (rows : List (List (String × Value))) (r : List (String × Value)) (e : ConstructError),
      r ∈ rows → Product.construct r = .error e →
      ∃ e2, Product.load (.envelope (.rows rows)) = .error e2) := by
  refine ⟨?_, ?_, ?_, ?_⟩
  · intro rows h
    obtain ⟨cs, hcs⟩ := constructEach_all_ok h
    refine ⟨cs, ?_, constructEach_ok_length hcs, constructEach_ok_get hcs⟩
    rw [Category.load, loadWith]
    simp only [unwrapData, hcs]
  · intro rows r e hr he
    obtain ⟨e2, he2⟩ := constructEach_error hr he
    refine ⟨e2, ?_⟩
    rw [Category.load, loadWith]
    simp only [unwrapData, he2]
  · intro rows h
    obtain ⟨ps, hps⟩ := constructEach_all_ok h
    refine ⟨ps, ?_, constructEach_ok_length hps, constructEach_ok_get hps⟩
    rw [Product.load, loadWith]
    simp only [unwrapData, hps]
  · intro rows r e hr he
    obtain ⟨e2, he2⟩ := constructEach_error hr he
    refine ⟨e2, ?_⟩
    rw [Product.load, loadWith]
    simp only [unwrapData, he2]

theorem claim_c4_witness :
    (∃ ps : List Product,
      Product.load (.envelope (.rows [[("name", Value.vStr "Pen"),
        ("sku", Value.vStr "AB-123")]])) = .ok (.many ps) ∧
      ps.length = 1 ∧
      ∀ (i : Nat) (hi : i < 1) (hp : i < ps.length),
        Product.construct ([[("name", Value.vStr "Pen"),
          ("sku", Value.vStr "AB-123")]].get ⟨i, hi⟩) = .ok (ps.get ⟨i, hp⟩)) ∧
    (∃ e2, Product.load (.envelope (.rows [[]])) = .error e2) := by
  constructor
  · have h := claim_c4_load_envelope_list.2.2.1
      [[("name", Value.vStr "Pen"), ("sku", Value.vStr "AB-123")]]
      (by
        intro r hr
        rw [List.mem_singleton] at hr
        subst hr
        exact ⟨⟨none, some "Pen", some "AB-123", none, none, none, none, none,
          ["name", "sku"]⟩, by decide⟩)
    exact h
  · exact claim_c4_load_envelope_list.2.2.2 [[]] [] (.requiredMissing ["name", "sku"])
      (List.mem_singleton.mpr rfl) (by decide)

/-- C5: for both entity definitions, `load` on a response envelope whose
data is a single raw mapping returns exactly one validated instance wrapped
as a single result, not a sequence. -/
theorem claim_c5_load_envelope_mapping :
    (∀ (m : List (String × Value)) (c : Category), Category.construct m = .ok c →
      Category.load (.envelope (.mapping m)) = .ok (.single c)) ∧
    (∀ (m : List (String × Value)) (p : Product), Product.construct m = .ok p →
      Product.load (.envelope (.mapping m)) = .ok (.single p)) := by
  constructor
  · intro m c h
    rw [Category.load, loadWith]
    simp only [unwrapData, h]
  · intro m p h
    rw [Product.load, loadWith]
    simp only [unwrapData, h]

theorem claim_c5_witness :
    Category.load (.envelope (.mapping [("name", Value.vStr "Books")])) =
      .ok (.single ⟨none, some "Books", none, ["name"]⟩) :=
  claim_c5_load_envelope_mapping.1 _ _ (by decide)

/-- C6: values violating a declared field constraint are rejected at
construction with a validation error naming the offending field: a Product
with sku "AB-12" fails the pattern constraint with an error on exactly the
field sku, and a Product with price 0.5 fails the bound price > 1 with an
error on exactly the field price. -/
theorem claim_c6_constraint_violations :
    Product.construct [("name", Value.vStr "Test"), ("sku", Value.vStr "AB-12")] =
      .error (.fieldErrors ["sku"]) ∧
    Product.construct [("name", Value.vStr "Test"), ("sku", Value.vStr "AB-123"),
      ("price", Value.vFloat (mkRat 1 2))] = .error (.fieldErrors ["price"]) := by
  constructor
  · decide
  · decide

/-- C7: `serialize_fields` dispatches on the value's runtime type through
the `_SERIALIZERS` lookup table: datetime, date and time values become
their ISO-8601 strings, a Decimal becomes its exact decimal string (in
particular Decimal("10.99") dumps to "10.99"), a UUID becomes its string, a
byte string becomes its base64 string (in particular b"ab" dumps to
"YWI="), and values of every other type pass through unchanged. -/
theorem claim_c7_serializer_table :
    serialize_fields (.vDec ⟨false, 1099, -2⟩) = .vStr "10.99" ∧
    serialize_fields (.vBytes [97, 98]) = .vStr "YWI=" ∧
    (∀ t : DateTimeV, serialize_fields (.vDt t) = .vStr t.isoformat) ∧
    (∀ d : DateV, serialize_fields (.vDate d) = .vStr d.isoformat) ∧
    (∀ t : TimeV, serialize_fields (.vTime t) = .vStr t.isoformat) ∧
    (∀ d : Dec, serialize_fields (.vDec d) = .vStr (decToString d)) ∧
    (∀ u : UuidV, serialize_fields (.vUuid u) = .vStr (uuidToString u)) ∧
    (∀ bs : List Nat, serialize_fields (.vBytes bs) = .vStr (b64encode bs)) ∧
    serialize_fields .vNone = .vNone ∧
    (∀ i : Int, serialize_fields (.vInt i) = .vInt i) ∧
    (∀ q : ℚ, serialize_fields (.vFloat q) = .vFloat q) ∧
    (∀ s : String, serialize_fields (.vStr s) = .vStr s) ∧
    (∀ e : PStatus, serialize_fields (.vEnum e) = .vEnum e) ∧
    (∀ c : Category, serialize_fields (.vCat c) = .vCat c) :=
  ⟨by decide, by decide, serialize_fields_vDt, serialize_fields_vDate, serialize_fields_vTime,
   serialize_fields_vDec, serialize_fields_vUuid, serialize_fields_vBytes,
   serialize_fields_vNone, serialize_fields_vInt, serialize_fields_vFloat,
   serialize_fields_vStr, serialize_fields_vEnum, serialize_fields_vCat⟩

/-- C8: for every instance of either subtype, iterating the instance yields
exactly the ordered pairs of its dump, so building a Python dict from the
instance equals the dump mapping. -/
theorem claim_c8_iter_eq_dump :
    (∀ c : Category, dictOfPairs c.iterPairs = c.dump) ∧
    (∀ p : Product, dictOfPairs p.iterPairs = p.dump) := by
  constructor
  · intro c
    have hnd : ((Category.dump c).map Prod.fst).Nodup := by
      rw [Category.dump, dump_keys Category.field_names c.fieldsSet c.dumpAll rfl]
      exact List.Nodup.filter _ (by decide)
    exact dictOfPairs_of_nodup hnd
  · intro p
    have hnd : ((Product.dump p).map Prod.fst).Nodup := by
      rw [Product.dump, dump_keys Product.field_names p.fieldsSet p.dumpAll rfl]
      exact List.Nodup.filter _ (by decide)
    exact dictOfPairs_of_nodup hnd

/-- C9: `load` also accepts a bare payload with no data attribute that is
itself a list: a bare list of N mappings yields a list of N validated
instances in order, and the bare empty list yields the empty list (with
nothing constructed or validated). -/
theorem claim_c9_bare_list :
    (∀ rows : List (List (String × Value)),
      (∀ r ∈ rows, ∃ x : Product, Product.construct r = .ok x) →
      ∃ ps : List Product, Product.load (.bare (.rows rows)) = .ok (.many ps) ∧
        ps.length = rows.length ∧
        ∀ (i : Nat) (hi : i < rows.length) (hp : i < ps.length),
          Product.construct (rows.get ⟨i, hi⟩) = .ok (ps.get ⟨i, hp⟩)) ∧
    Product.load (.bare (.rows [])) = .ok (.many []) ∧
    Category.load (.bare (.rows [])) = .ok (.many []) := by
  refine ⟨?_, rfl, rfl⟩
  intro rows h
  obtain ⟨ps, hps⟩ := constructEach_all_ok h
  refine ⟨ps, ?_, constructEach_ok_length hps, constructEach_ok_get hps⟩
  rw [Product.load, loadWith]
  simp only [unwrapData, hps]

theorem claim_c9_witness :
    ∃ ps : List Product,
      Product.load (.bare (.rows [[("name", Value.vStr "Pen"),
        ("sku", Value.vStr "AB-123")]])) = .ok (.many ps) ∧
      ps.length = 1 ∧
      ∀ (i : Nat) (hi : i < 1) (hp : i < ps.length),
        Product.construct ([[("name", Value.vStr "Pen"),
          ("sku", Value.vStr "AB-123")]].get ⟨i, hi⟩) = .ok (ps.get ⟨i, hp⟩) :=
  claim_c9_bare_list.1 [[("name", Value.vStr "Pen"), ("sku", Value.vStr "AB-123")]]
    (by
      intro r hr
      rw [List.mem_singleton] at hr
      subst hr
      exact ⟨⟨none, some "Pen", some "AB-123", none, none, none, none, none,
        ["name", "sku"]⟩, by decide⟩)

/-- C10: attribute assignment after construction is never validated: the
models declare no validate_assignment configuration, so setattr stores the
assigned value as-is — even a price violating the bound price > 1 or a None
in a required field — raises no error (the assignment functions are total),
and records the field as explicitly set. The constraint and required-field
guarantees therefore hold only at construction time. -/
theorem claim_c10_assignment_unvalidated :
    (∀ (p : Product) (q : ℚ), (p.assignPrice (some (.pfloat q))).price = some (.pfloat q) ∧
      (p.assignPrice (some (.pfloat q))).fieldsSet.contains "price" = true) ∧
    (∀ (p : Product) (v : Option String), (p.assignName v).name = v ∧
      (p.assignName v).fieldsSet.contains "name" = true) ∧
    (∀ (c : Category) (v : Option String), (c.assignName v).name = v ∧
      (c.assignName v).fieldsSet.contains "name" = true) ∧
    (∀ (c : Category) (v : Option String), (c.assignNickname v).nickname = v ∧
      (c.assignNickname v).fieldsSet.contains "nickname" = true) := by
  refine ⟨?_, ?_, ?_, ?_⟩
  · intro p q
    exact ⟨rfl, addFieldName_contains p.fieldsSet "price"⟩
  · intro p v
    exact ⟨rfl, addFieldName_contains p.fieldsSet "name"⟩
  · intro c v
    exact ⟨rfl, addFieldName_contains c.fieldsSet "name"⟩
  · intro c v
    exact ⟨rfl, addFieldName_contains c.fieldsSet "nickname"⟩

end SupabaseModels






